import Mathlib

set_option maxHeartbeats 1000000

/-!
# Verification of the Dolphinoko Blender MCP protocol core

A shallow embedding, in Lean 4, of the newline-framed JSON command protocol
between the Blender addon socket server (`src/assets/blender/addon.py`) and
the backend client connector
(`src/backend/services/blender_mcp_service.py`), together with the
command-history ring, the last-error slot and the natural-language
translator of the addon.

Bytes on the wire are modelled as `List Char` (the protocol is UTF-8 text).
JSON values are modelled by `JVal`; `json_dumps` follows Python's
`json.dumps` (default separators `", "` and `": "`; strings escaped with
`\"`, `\\`, `\n`, `\t`, `\r`, `\b`, `\f` and — `ensure_ascii` being the
default — `\uXXXX` for the other control characters and for everything
outside printable ASCII, with surrogate pairs above `0xffff`; numbers are
ints and finite floats, a float identified by its `repr` literal, the
protocol's `location`/`color`/`metallic` parameters and scene-info
coordinates being floats) and `json_loads` models `json.loads` (whitespace
tolerated around tokens, numbers per the scanner's `NUMBER_RE`, exactly one
document, trailing garbage rejected).
-/

/-- Digits closing a number component: one-or-more digits consuming the
whole remainder (a final `\d+` of Python's `NUMBER_RE`). -/
def expDigitsWF : List Char → Bool
  | [] => false
  | c :: r => c.isDigit && (r.dropWhile Char.isDigit).isEmpty

/-- Exponent tail after `e`/`E`: optional sign, then digits to the end. -/
def expTailWF : List Char → Bool
  | [] => false
  | c :: r => if c = '+' ∨ c = '-' then expDigitsWF r else expDigitsWF (c :: r)

/-- A whole exponent part `[eE][-+]?\d+` consuming the remainder. -/
def expReqWF : List Char → Bool
  | [] => false
  | c :: r => if c = 'e' ∨ c = 'E' then expTailWF r else false

/-- An optional exponent part: absent (nothing left) or a whole one. -/
def expOptWF (m : List Char) : Bool := m.isEmpty || expReqWF m

/-- Fraction and/or exponent, `(\.\d+)?([eE][-+]?\d+)?` with at least one
of the two parts present, consuming the whole remainder. -/
def fracExpWF : List Char → Bool
  | [] => false
  | c :: r =>
    if c = '.' then
      match r with
      | [] => false
      | d :: r2 => d.isDigit && expOptWF (r2.dropWhile Char.isDigit)
    else expReqWF (c :: r)

/-- Integer part and onward: `(0|[1-9]\d*)` — no leading zeros — then the
fraction/exponent part. -/
def floatIntWF : List Char → Bool
  | [] => false
  | c :: r =>
    if c = '0' then fracExpWF r
    else c.isDigit && fracExpWF (r.dropWhile Char.isDigit)

/-- Python's float-literal grammar: the float case of the `json` scanner's
`NUMBER_RE` `(-?(?:0|[1-9]\d*))(\.\d+)?([eE][-+]?\d+)?` — an optional minus
sign, an integer part without leading zeros, then a fraction and/or an
exponent (at least one of the two, else the literal is an int), nothing
left over.  `float.__repr__` — what `json.dumps` prints for every finite
float — always matches this grammar, and CPython guarantees
`float(repr(x)) == x`, so a finite float is faithfully identified by its
literal text. -/
def floatTokWF : List Char → Bool
  | [] => false
  | c :: r => if c = '-' then floatIntWF r else floatIntWF (c :: r)

/-- A finite Python float on this wire, identified by its literal text
(see `floatTokWF`): `json.dumps` prints the text, `json.loads` returns the
float the text denotes.  Two distinct literals denoting the same double
(such as `1.50` and `1.5`) are distinct values here — finer-grained than
IEEE doubles, which only `dumps` output (always canonical `repr` text)
flows through.  (Non-finite floats serialize as the non-JSON
`Infinity`/`NaN` tokens and never appear on this protocol.) -/
structure FloatTok where
  text : List Char
  ok : floatTokWF text = true

theorem FloatTok.eq_iff (a b : FloatTok) : a = b ↔ a.text = b.text := by
  constructor
  · intro h
    rw [h]
  · intro h
    cases a with
    | mk ta ha =>
      cases b with
      | mk tb hb =>
        dsimp only at h
        subst h
        rfl

instance : DecidableEq FloatTok :=
  fun a b => decidable_of_iff _ (FloatTok.eq_iff a b).symm

/-- A JSON value, as produced by `json.loads` / consumed by `json.dumps`.
Numbers are ints (`num`) or finite floats (`fnum`); object fields keep
their textual order, duplicates included. -/
inductive JVal : Type where
  | null : JVal
  | bool : Bool → JVal
  | num : Int → JVal
  | fnum : FloatTok → JVal
  | str : String → JVal
  | arr : List JVal → JVal
  | obj : List (String × JVal) → JVal

mutual
/-- Structural equality test for `JVal` (Python `==` on parsed JSON). -/
def beqVal : JVal → JVal → Bool
  | .null, .null => true
  | .bool a, .bool b => a == b
  | .num a, .num b => a == b
  | .fnum a, .fnum b => a.text == b.text
  | .str a, .str b => a == b
  | .arr a, .arr b => beqElems a b
  | .obj a, .obj b => beqFields a b
  | _, _ => false
termination_by structural a => a
/-- Elementwise equality of JSON arrays. -/
def beqElems : List JVal → List JVal → Bool
  | [], [] => true
  | a :: as, b :: bs => beqVal a b && beqElems as bs
  | _, _ => false
termination_by structural a => a
/-- Fieldwise equality of JSON objects. -/
def beqFields : List (String × JVal) → List (String × JVal) → Bool
  | [], [] => true
  | (k1, v1) :: as, (k2, v2) :: bs => k1 == k2 && beqVal v1 v2 && beqFields as bs
  | _, _ => false
termination_by structural a => a
end

mutual
theorem beqVal_iff : ∀ (a b : JVal), beqVal a b = true ↔ a = b
  | .null, b => by cases b <;> simp [beqVal]
  | .bool x, b => by cases b <;> simp [beqVal]
  | .num x, b => by cases b <;> simp [beqVal]
  | .fnum x, b => by cases b <;> simp [beqVal, FloatTok.eq_iff]
  | .str x, b => by cases b <;> simp [beqVal]
  | .arr xs, b => by
      cases b
      case arr ys =>
        rw [show beqVal (.arr xs) (.arr ys) = beqElems xs ys from rfl, beqElems_iff xs ys]
        simp
      all_goals simp [beqVal]
  | .obj xs, b => by
      cases b
      case obj ys =>
        rw [show beqVal (.obj xs) (.obj ys) = beqFields xs ys from rfl, beqFields_iff xs ys]
        simp
      all_goals simp [beqVal]
theorem beqElems_iff : ∀ (a b : List JVal), beqElems a b = true ↔ a = b
  | [], b => by cases b <;> simp [beqElems]
  | x :: xs, b => by
      cases b with
      | nil => simp [beqElems]
      | cons y ys =>
          simp only [beqElems, Bool.and_eq_true, List.cons.injEq]
          rw [beqVal_iff x y, beqElems_iff xs ys]
theorem beqFields_iff : ∀ (a b : List (String × JVal)), beqFields a b = true ↔ a = b
  | [], b => by cases b <;> simp [beqFields]
  | (k, v) :: xs, b => by
      cases b with
      | nil => simp [beqFields]
      | cons y ys =>
          obtain ⟨k2, v2⟩ := y
          simp only [beqFields, Bool.and_eq_true, List.cons.injEq, Prod.mk.injEq,
            beq_iff_eq, beqVal_iff v v2, beqFields_iff xs ys, and_assoc]
end

instance : DecidableEq JVal := fun a b => decidable_of_iff _ (beqVal_iff a b)

/-- Decimal digits, least significant first, with explicit fuel (so the
definition is structural and evaluates in the kernel). -/
def natDigitsAux : Nat → Nat → List Char
  | _, 0 => []
  | 0, _ + 1 => []
  | fuel + 1, n + 1 => Nat.digitChar ((n + 1) % 10) :: natDigitsAux fuel ((n + 1) / 10)

/-- Decimal digits of `n`, least significant first (`[]` for `0`). -/
def natDigitsLSD (n : Nat) : List Char := natDigitsAux n n

/-- Decimal digits of `n`, most significant first; `"0"` for `0` (what
Python's `str` prints for a nonnegative int). -/
def natChars (n : Nat) : List Char :=
  if n = 0 then ['0'] else (natDigitsLSD n).reverse

/-- Python's `str`/`json.dumps` rendering of an int: optional minus sign,
then decimal digits. -/
def intChars (i : Int) : List Char :=
  if i < 0 then '-' :: natChars i.natAbs else natChars i.natAbs

/-- Numeric value of one decimal digit character. -/
def digitVal (c : Char) : Nat := c.toNat - '0'.toNat

/-- Numeric value of a digit run, most significant first. -/
def digitsVal (ds : List Char) : Nat :=
  ds.foldl (fun a c => a * 10 + digitVal c) 0

/-- The four lowercase hex digits of `'\\u%04x' % n`. -/
def toHex4 (n : Nat) : List Char :=
  [Nat.digitChar (n / 4096 % 16), Nat.digitChar (n / 256 % 16),
   Nat.digitChar (n / 16 % 16), Nat.digitChar (n % 16)]

/-- `json.dumps` escaping of one string character with the default
`ensure_ascii=True` (CPython's `py_encode_basestring_ascii`): quote,
backslash and the five short control escapes; `\uXXXX` for the other
control characters and for everything outside `0x20`-`0x7e`; a UTF-16
surrogate pair of `\uXXXX` escapes for code points above `0xffff`. -/
def escapeChar (c : Char) : List Char :=
  if c = '"' then ['\\', '"']
  else if c = '\\' then ['\\', '\\']
  else if c = '\n' then ['\\', 'n']
  else if c = '\t' then ['\\', 't']
  else if c = '\r' then ['\\', 'r']
  else if c = '\x08' then ['\\', 'b']
  else if c = '\x0c' then ['\\', 'f']
  else if c.toNat < 32 then '\\' :: 'u' :: toHex4 c.toNat
  else if c.toNat ≤ 126 then [c]
  else if c.toNat < 65536 then '\\' :: 'u' :: toHex4 c.toNat
  else '\\' :: 'u' :: toHex4 (55296 + (c.toNat - 65536) / 1024)
    ++ '\\' :: 'u' :: toHex4 (56320 + (c.toNat - 65536) % 1024)

/-- `json.dumps` escaping of a whole string body (no surrounding quotes). -/
def escStr : List Char → List Char
  | [] => []
  | c :: cs => escapeChar c ++ escStr cs

/-- A `json.dumps` string literal: quotes around the escaped body. -/
def dumpsStr (s : String) : List Char :=
  '"' :: (escStr s.data ++ ['"'])

mutual
/-- `json.dumps` with its default separators (`", "` between items,
`": "` after keys), as the addon and the client both call it. -/
def dumpsVal : JVal → List Char
  | .null => 'n' :: ['u', 'l', 'l']
  | .bool true => 't' :: ['r', 'u', 'e']
  | .bool false => 'f' :: ['a', 'l', 's', 'e']
  | .num i => intChars i
  | .fnum f => f.text
  | .str s => dumpsStr s
  | .arr es => '[' :: (dumpsElems es ++ [']'])
  | .obj fs => '\x7b' :: (dumpsFields fs ++ ['\x7d'])
termination_by structural v => v
/-- Array items, separated by `", "`. -/
def dumpsElems : List JVal → List Char
  | [] => []
  | [e] => dumpsVal e
  | e :: e2 :: es => dumpsVal e ++ ',' :: ' ' :: dumpsElems (e2 :: es)
termination_by structural l => l
/-- Object fields, `"key": value`, separated by `", "`. -/
def dumpsFields : List (String × JVal) → List Char
  | [] => []
  | [(k, v)] => dumpsStr k ++ ':' :: ' ' :: dumpsVal v
  | (k, v) :: f2 :: fs =>
      dumpsStr k ++ ':' :: ' ' :: dumpsVal v ++ ',' :: ' ' :: dumpsFields (f2 :: fs)
termination_by structural l => l
end

/-- The whole `json.dumps` output as a `String`. -/
def json_dumps (v : JVal) : String := String.mk (dumpsVal v)

/-- JSON whitespace (the four characters Python's `json` scanner skips). -/
def jWs (c : Char) : Bool := c == ' ' || c == '\t' || c == '\n' || c == '\r'

/-- Drop leading JSON whitespace. -/
def skipWs : List Char → List Char
  | [] => []
  | c :: cs => if jWs c then skipWs cs else c :: cs

/-- Whitespace for Python's `str.strip()` (ASCII portion). -/
def pyWs (c : Char) : Bool :=
  c == ' ' || c == '\t' || c == '\n' || c == '\r' || c == '\x0b' || c == '\x0c'

/-- Python's `str.strip()`: drop whitespace from both ends. -/
def pyStrip (l : List Char) : List Char :=
  ((l.dropWhile pyWs).reverse.dropWhile pyWs).reverse

/-- Value of one hexadecimal digit character. -/
def hexVal (c : Char) : Option Nat :=
  let n := c.toNat
  if 48 ≤ n && n ≤ 57 then some (n - 48)
  else if 97 ≤ n && n ≤ 102 then some (n - 87)
  else if 65 ≤ n && n ≤ 70 then some (n - 55)
  else none

/-- The character named by a JSON backslash escape (other than `\uXXXX`). -/
def unescapeChar : Char → Option Char
  | '/' => some '/'
  | '"' => some '"'
  | '\\' => some '\\'
  | 'b' => some '\x08'
  | 'f' => some '\x0c'
  | 'n' => some '\n'
  | 'r' => some '\r'
  | 't' => some '\t'
  | _ => none

mutual
/-- Parse a JSON string body (after the opening quote) up to and including
the closing quote; rejects raw control characters, as `json.loads` does.
A `\uXXXX` escape in the high-surrogate range combines with a following
low-surrogate escape into one code point, as CPython's `scanstring` does.
(A lone surrogate escape — which CPython keeps as a lone-surrogate code
unit, a value a Unicode scalar cannot carry — is rejected here; `dumps`
output never contains one.) -/
def jparseStrBody : List Char → Option (List Char × List Char)
  | [] => none
  | '"' :: rest => some ([], rest)
  | '\\' :: 'u' :: h1 :: h2 :: h3 :: h4 :: rest =>
      match hexVal h1, hexVal h2, hexVal h3, hexVal h4 with
      | some a, some b, some c, some d =>
          let u := ((a * 16 + b) * 16 + c) * 16 + d
          if 55296 ≤ u ∧ u < 56320 then jparseLowSur u rest
          else if 56320 ≤ u ∧ u < 57344 then none
          else (jparseStrBody rest).map (fun p => (Char.ofNat u :: p.1, p.2))
      | _, _, _, _ => none
  | '\\' :: e :: rest =>
      match unescapeChar e with
      | some c => (jparseStrBody rest).map (fun p => (c :: p.1, p.2))
      | none => none
  | ['\\'] => none
  | c :: rest =>
      if c.toNat < 32 then none
      else (jparseStrBody rest).map (fun p => (c :: p.1, p.2))
termination_by structural l => l
/-- After a high-surrogate `\uXXXX` escape of value `u`: require a
low-surrogate escape next and combine the pair into one code point. -/
def jparseLowSur (u : Nat) : List Char → Option (List Char × List Char)
  | '\\' :: 'u' :: g1 :: g2 :: g3 :: g4 :: rest2 =>
      match hexVal g1, hexVal g2, hexVal g3, hexVal g4 with
      | some a2, some b2, some c2, some d2 =>
          let u2 := ((a2 * 16 + b2) * 16 + c2) * 16 + d2
          if 56320 ≤ u2 ∧ u2 < 57344 then
            (jparseStrBody rest2).map (fun p =>
              (Char.ofNat (65536 + (u - 55296) * 1024 + (u2 - 56320)) :: p.1, p.2))
          else none
      | _, _, _, _ => none
  | _ => none
termination_by structural l => l
end

/-- The fraction part `\.\d+` if present (`NUMBER_RE` group 2): consumed
characters and remainder; nothing is consumed when the part is absent or
malformed (a bare `.` stays for the caller's context, as the regex leaves
it). -/
def parseFrac : List Char → List Char × List Char
  | [] => ([], [])
  | c :: r =>
    if c = '.' then
      match r with
      | [] => ([], c :: r)
      | d :: r2 =>
        if d.isDigit then
          ('.' :: d :: r2.takeWhile Char.isDigit, r2.dropWhile Char.isDigit)
        else ([], c :: r)
    else ([], c :: r)

/-- The digits closing an exponent: one-or-more, maximal. -/
def parseExpDigits : List Char → Option (List Char × List Char)
  | [] => none
  | d :: r =>
    if d.isDigit then some (d :: r.takeWhile Char.isDigit, r.dropWhile Char.isDigit)
    else none

/-- The exponent tail after `e`/`E`: optional sign, then digits. -/
def parseExpTail : List Char → Option (List Char × List Char)
  | [] => none
  | s :: r =>
    if s = '+' ∨ s = '-' then
      match parseExpDigits r with
      | some (ds, rem) => some (s :: ds, rem)
      | none => none
    else parseExpDigits (s :: r)

/-- The exponent part `[eE][-+]?\d+` if present (`NUMBER_RE` group 3):
consumed characters and remainder; nothing when absent or malformed. -/
def parseExp : List Char → List Char × List Char
  | [] => ([], [])
  | c :: r =>
    if c = 'e' ∨ c = 'E' then
      match parseExpTail r with
      | some (body, rem) => (c :: body, rem)
      | none => ([], c :: r)
    else ([], c :: r)

/-- The int value of a parsed sign and digit run (`int()` of the match). -/
def intOfParts (sgn ds : List Char) : Int :=
  if sgn.isEmpty then (digitsVal ds : Int) else -(digitsVal ds : Int)

/-- Finish a number after its integer part `ip`: try the fraction and the
exponent; with neither, the literal is an int, otherwise a float carrying
the whole matched text (`float()` of the match — a float is identified by
its literal text here, see `FloatTok`).  The fallback arm cannot be
reached (a nonempty fraction/exponent always assembles a grammatical
token); it keeps the function total by falling back to the int reading. -/
def jnumFinish (sgn ip m : List Char) : JVal × List Char :=
  let fr := parseFrac m
  let ex := parseExp fr.2
  if fr.1.isEmpty && ex.1.isEmpty then (.num (intOfParts sgn ip), ex.2)
  else
    match h : floatTokWF (sgn ++ ip ++ fr.1 ++ ex.1) with
    | true => (.fnum ⟨sgn ++ ip ++ fr.1 ++ ex.1, h⟩, ex.2)
    | false => (.num (intOfParts sgn ip), m)

/-- Parse a number after the optional sign: the integer part `0|[1-9]\d*`
(a leading `0` takes no further digits, so `01` is `0` plus leftover `1`,
which the context then rejects — exactly CPython's behaviour), then
`jnumFinish`. -/
def jparseNum (sgn : List Char) : List Char → Option (JVal × List Char)
  | [] => none
  | c :: r =>
    if c = '0' then some (jnumFinish sgn ['0'] r)
    else if c.isDigit then
      some (jnumFinish sgn (c :: r.takeWhile Char.isDigit) (r.dropWhile Char.isDigit))
    else none

mutual
/-- Parse one JSON value (fuelled; `json_loads` supplies ample fuel). -/
def jparse : Nat → List Char → Option (JVal × List Char)
  | 0, _ => none
  | fuel + 1, cs =>
    match cs with
    | 'n' :: 'u' :: 'l' :: 'l' :: r => some (.null, r)
    | 't' :: 'r' :: 'u' :: 'e' :: r => some (.bool true, r)
    | 'f' :: 'a' :: 'l' :: 's' :: 'e' :: r => some (.bool false, r)
    | '"' :: r => (jparseStrBody r).map (fun p => (.str (String.mk p.1), p.2))
    | '[' :: r =>
        match skipWs r with
        | ']' :: r2 => some (.arr [], r2)
        | r2 => (jparseItems fuel r2).map (fun p => (.arr p.1, p.2))
    | '\x7b' :: r =>
        match skipWs r with
        | '\x7d' :: r2 => some (.obj [], r2)
        | r2 => (jparsePairs fuel r2).map (fun p => (.obj p.1, p.2))
    | '-' :: r => jparseNum ['-'] r
    | c :: r => if c.isDigit then jparseNum [] (c :: r) else none
    | [] => none
termination_by structural fuel => fuel
/-- Parse one-or-more comma-separated array items and the closing bracket. -/
def jparseItems : Nat → List Char → Option (List JVal × List Char)
  | 0, _ => none
  | fuel + 1, cs =>
    match jparse fuel cs with
    | none => none
    | some (v, r) =>
      match skipWs r with
      | ',' :: r2 => (jparseItems fuel (skipWs r2)).map (fun p => (v :: p.1, p.2))
      | ']' :: r2 => some ([v], r2)
      | _ => none
termination_by structural fuel => fuel
/-- Parse one-or-more `"key": value` pairs and the closing brace. -/
def jparsePairs : Nat → List Char → Option (List (String × JVal) × List Char)
  | 0, _ => none
  | fuel + 1, cs =>
    match cs with
    | '"' :: r =>
      match jparseStrBody r with
      | none => none
      | some (k, r1) =>
        match skipWs r1 with
        | ':' :: r2 =>
          match jparse fuel (skipWs r2) with
          | none => none
          | some (v, r3) =>
            match skipWs r3 with
            | ',' :: r4 =>
                (jparsePairs fuel (skipWs r4)).map
                  (fun p => ((String.mk k, v) :: p.1, p.2))
            | '\x7d' :: r4 => some ([(String.mk k, v)], r4)
            | _ => none
        | _ => none
    | _ => none
termination_by structural fuel => fuel
end

/-- `json.loads`: exactly one JSON document, whitespace allowed around it,
anything else (including a second document) rejected. -/
def json_loads (l : List Char) : Option JVal :=
  match jparse (2 * l.length + 2) (skipWs l) with
  | some (v, r) => if skipWs r = [] then some v else none
  | none => none


/-! ### Decimal digits: `natChars`/`intChars` invert through `digitsVal` -/

theorem natDigitsAux_irrel : ∀ (n f1 f2 : Nat), n ≤ f1 → n ≤ f2 →
    natDigitsAux f1 n = natDigitsAux f2 n := by
  intro n
  induction n using Nat.strong_induction_on with
  | _ n ih =>
    intro f1 f2 h1 h2
    cases n with
    | zero => cases f1 <;> cases f2 <;> rfl
    | succ m =>
      cases f1 with
      | zero => omega
      | succ g1 =>
        cases f2 with
        | zero => omega
        | succ g2 =>
          simp only [natDigitsAux]
          congr 1
          exact ih ((m + 1) / 10) (by omega) g1 g2 (by omega) (by omega)

theorem natDigitsLSD_succ (n : Nat) :
    natDigitsLSD (n + 1) = Nat.digitChar ((n + 1) % 10) :: natDigitsLSD ((n + 1) / 10) := by
  have hd : (n + 1) / 10 < n + 1 := Nat.div_lt_self (Nat.succ_pos n) (by omega)
  simp only [natDigitsLSD, natDigitsAux]
  rw [natDigitsAux_irrel ((n + 1) / 10) n ((n + 1) / 10) (by omega) (by omega)]

theorem digitChar_isDigit (d : Nat) (h : d < 10) : (Nat.digitChar d).isDigit = true := by
  interval_cases d <;> decide

theorem digitVal_digitChar (d : Nat) (h : d < 10) : digitVal (Nat.digitChar d) = d := by
  interval_cases d <;> decide

theorem natDigitsLSD_digits (n : Nat) : ∀ c ∈ natDigitsLSD n, c.isDigit = true := by
  induction n using Nat.strong_induction_on with
  | _ n ih =>
    match n with
    | 0 => intro c hc; simp [natDigitsLSD, natDigitsAux] at hc
    | n + 1 =>
      rw [natDigitsLSD_succ]
      intro c hc
      rcases List.mem_cons.mp hc with h | h
      · subst h; exact digitChar_isDigit _ (Nat.mod_lt _ (by omega))
      · exact ih ((n + 1) / 10) (Nat.div_lt_self (Nat.succ_pos n) (by omega)) c h

theorem foldr_natDigitsLSD (n : Nat) :
    (natDigitsLSD n).foldr (fun c a => a * 10 + digitVal c) 0 = n := by
  induction n using Nat.strong_induction_on with
  | _ n ih =>
    match n with
    | 0 => rfl
    | n + 1 =>
      rw [natDigitsLSD_succ, List.foldr_cons,
        ih ((n + 1) / 10) (Nat.div_lt_self (Nat.succ_pos n) (by omega)),
        digitVal_digitChar _ (Nat.mod_lt _ (by omega))]
      omega

theorem digitsVal_natChars (n : Nat) : digitsVal (natChars n) = n := by
  by_cases h : n = 0
  · subst h; rfl
  · rw [natChars, if_neg h, digitsVal, List.foldl_reverse, foldr_natDigitsLSD]

theorem natChars_ne_nil (n : Nat) : natChars n ≠ [] := by
  by_cases h : n = 0
  · subst h; simp [natChars]
  · rw [natChars, if_neg h]
    match n, h with
    | n + 1, _ =>
      rw [natDigitsLSD_succ]
      simp

theorem natChars_digits (n : Nat) : ∀ c ∈ natChars n, c.isDigit = true := by
  by_cases h : n = 0
  · subst h; intro c hc; simp [natChars] at hc; subst hc; decide
  · rw [natChars, if_neg h]
    intro c hc
    exact natDigitsLSD_digits n c (List.mem_reverse.mp hc)

/-- Whether a remainder cannot extend a digit run: empty or headed by a
non-digit.  Every place `json.dumps` output can put after a number (`,`,
`]`, `}`, end of text, whitespace) qualifies. -/
def noDigitHead : List Char → Bool
  | [] => true
  | c :: _ => !c.isDigit

theorem takeWhile_digits_append (ds rest : List Char)
    (hds : ∀ c ∈ ds, c.isDigit = true) (hrest : noDigitHead rest = true) :
    (ds ++ rest).takeWhile Char.isDigit = ds ∧
    (ds ++ rest).dropWhile Char.isDigit = rest := by
  induction ds with
  | nil =>
    simp only [List.nil_append]
    cases rest with
    | nil => simp
    | cons c t =>
      simp only [noDigitHead, Bool.not_eq_true'] at hrest
      simp [List.takeWhile_cons, List.dropWhile_cons, hrest]
  | cons c ds ih =>
    have hc : c.isDigit = true := hds c (by simp)
    have := ih (fun x hx => hds x (by simp [hx]))
    simp [List.takeWhile_cons, List.dropWhile_cons, hc, this.1, this.2]

/-- Whether a remainder cannot extend a number token: empty or headed by a
character that is no digit and none of `.`, `e`, `E`.  Every place
`json.dumps` output can put after a number (`,`, `]`, `}`, end of text,
whitespace) qualifies. -/
def numSep : List Char → Bool
  | [] => true
  | c :: _ => !(c.isDigit || c == '.' || c == 'e' || c == 'E')

theorem numSep_noDigitHead (l : List Char) (h : numSep l = true) :
    noDigitHead l = true := by
  cases l with
  | nil => rfl
  | cons c t =>
    simp only [numSep, Bool.not_eq_true', Bool.or_eq_false_iff] at h
    simp [noDigitHead, h.1.1.1]

theorem numSep_facts (c : Char) (t : List Char) (h : numSep (c :: t) = true) :
    c.isDigit = false ∧ c ≠ '.' ∧ c ≠ 'e' ∧ c ≠ 'E' := by
  simp only [numSep, Bool.not_eq_true', Bool.or_eq_false_iff, beq_eq_false_iff_ne] at h
  exact ⟨h.1.1.1, h.1.1.2, h.1.2, h.2⟩

/-- The head of the non-digit remainder of a digit run is no digit. -/
theorem dropWhile_digits_head (l : List Char) (c : Char) (t : List Char)
    (h : l.dropWhile Char.isDigit = c :: t) : c.isDigit = false := by
  induction l with
  | nil => simp at h
  | cons d r ih =>
    rw [List.dropWhile_cons] at h
    by_cases hd : d.isDigit = true
    · rw [if_pos hd] at h
      exact ih h
    · rw [if_neg hd] at h
      injection h with h1 _
      subst h1
      simpa using hd

/-! ### The float grammar decomposes into its regex groups -/

theorem expReqWF_decomp (m : List Char) (h : expReqWF m = true) :
    ∃ ec sg d B, m = ec :: (sg ++ d :: B)
      ∧ (ec = 'e' ∨ ec = 'E')
      ∧ (sg = [] ∨ sg = ['+'] ∨ sg = ['-'])
      ∧ d.isDigit = true
      ∧ (∀ x ∈ B, x.isDigit = true) := by
  cases m with
  | nil => simp [expReqWF] at h
  | cons c r =>
    rw [expReqWF] at h
    by_cases hc : c = 'e' ∨ c = 'E'
    · rw [if_pos hc] at h
      cases r with
      | nil => simp [expTailWF] at h
      | cons s r2 =>
        rw [expTailWF] at h
        by_cases hs : s = '+' ∨ s = '-'
        · rw [if_pos hs] at h
          cases r2 with
          | nil => simp [expDigitsWF] at h
          | cons d r3 =>
            rw [expDigitsWF, Bool.and_eq_true, List.isEmpty_iff,
              List.dropWhile_eq_nil_iff] at h
            refine ⟨c, [s], d, r3, by simp, hc, ?_, h.1, h.2⟩
            rcases hs with hs | hs
            · exact Or.inr (Or.inl (by rw [hs]))
            · exact Or.inr (Or.inr (by rw [hs]))
        · rw [if_neg hs] at h
          rw [expDigitsWF, Bool.and_eq_true, List.isEmpty_iff,
            List.dropWhile_eq_nil_iff] at h
          exact ⟨c, [], s, r2, by simp, hc, Or.inl rfl, h.1, h.2⟩
    · rw [if_neg hc] at h
      exact absurd h (by simp)

theorem expReqWF_head (m : List Char) (h : expReqWF m = true) :
    ∃ c r, m = c :: r ∧ (c = 'e' ∨ c = 'E') := by
  obtain ⟨ec, sg, d, B, hm, hec, _, _, _⟩ := expReqWF_decomp m h
  exact ⟨ec, _, hm, hec⟩

theorem expReqWF_noDigitHead (m : List Char) (h : expReqWF m = true) :
    noDigitHead m = true := by
  obtain ⟨c, r, hm, hc⟩ := expReqWF_head m h
  subst hm
  rcases hc with hc | hc <;> subst hc <;> rfl

theorem fracExpWF_decomp (m : List Char) (h : fracExpWF m = true) :
    ∃ mf mx, m = mf ++ mx
      ∧ (mf = [] ∨ ∃ d B, mf = '.' :: d :: B ∧ d.isDigit = true
          ∧ ∀ x ∈ B, x.isDigit = true)
      ∧ (mx = [] ∨ expReqWF mx = true)
      ∧ (mf = [] → expReqWF mx = true) := by
  cases m with
  | nil => simp [fracExpWF] at h
  | cons c r =>
    rw [fracExpWF.eq_def] at h
    dsimp only at h
    by_cases hc : c = '.'
    · rw [if_pos hc] at h
      cases r with
      | nil => exact absurd h (by simp)
      | cons d r2 =>
        rw [Bool.and_eq_true] at h
        obtain ⟨hd, hopt⟩ := h
        subst hc
        have hB : ∀ x ∈ r2.takeWhile Char.isDigit, x.isDigit = true :=
          fun x hx => List.mem_takeWhile_imp hx
        have hmx : r2.dropWhile Char.isDigit = []
            ∨ expReqWF (r2.dropWhile Char.isDigit) = true := by
          rw [expOptWF, Bool.or_eq_true, List.isEmpty_iff] at hopt
          exact hopt
        refine ⟨'.' :: d :: r2.takeWhile Char.isDigit, r2.dropWhile Char.isDigit, ?_,
          Or.inr ⟨d, _, rfl, hd, hB⟩, hmx, by simp⟩
        simp only [List.cons_append, List.cons.injEq, true_and]
        exact (List.takeWhile_append_dropWhile Char.isDigit r2).symm
    · rw [if_neg hc] at h
      exact ⟨[], c :: r, by simp, Or.inl rfl, Or.inr h, fun _ => h⟩

theorem fracExpWF_head (m : List Char) (h : fracExpWF m = true) :
    ∃ c r, m = c :: r ∧ (c = '.' ∨ c = 'e' ∨ c = 'E') := by
  cases m with
  | nil => simp [fracExpWF] at h
  | cons c r =>
    rw [fracExpWF.eq_def] at h
    dsimp only at h
    by_cases hc : c = '.'
    · exact ⟨c, r, rfl, Or.inl hc⟩
    · rw [if_neg hc] at h
      obtain ⟨c2, r2, hm, hc2⟩ := expReqWF_head _ h
      exact ⟨c2, r2, hm, Or.inr hc2⟩

theorem fracExpWF_noDigitHead (m : List Char) (h : fracExpWF m = true) :
    noDigitHead m = true := by
  obtain ⟨c, r, hm, hc⟩ := fracExpWF_head m h
  subst hm
  rcases hc with hc | hc | hc <;> subst hc <;> rfl

theorem floatIntWF_decomp (t : List Char) (h : floatIntWF t = true) :
    ∃ c A m, t = c :: (A ++ m) ∧ c.isDigit = true ∧ (∀ x ∈ A, x.isDigit = true)
      ∧ (c = '0' → A = []) ∧ fracExpWF m = true := by
  cases t with
  | nil => simp [floatIntWF] at h
  | cons c r =>
    rw [floatIntWF] at h
    by_cases hc : c = '0'
    · rw [if_pos hc] at h
      exact ⟨c, [], r, by simp, by rw [hc]; decide, by simp, fun _ => rfl, h⟩
    · rw [if_neg hc, Bool.and_eq_true] at h
      refine ⟨c, r.takeWhile Char.isDigit, r.dropWhile Char.isDigit, ?_, h.1,
        fun x hx => List.mem_takeWhile_imp hx, fun h0 => absurd h0 hc, h.2⟩
      rw [List.takeWhile_append_dropWhile]

theorem floatIntWF_head (t : List Char) (h : floatIntWF t = true) :
    ∃ c r, t = c :: r ∧ c.isDigit = true := by
  obtain ⟨c, A, m, ht, hc, _⟩ := floatIntWF_decomp t h
  exact ⟨c, _, ht, hc⟩

theorem floatTokWF_decomp (t : List Char) (h : floatTokWF t = true) :
    ∃ sgn body, t = sgn ++ body ∧ (sgn = [] ∨ sgn = ['-'])
      ∧ floatIntWF body = true := by
  cases t with
  | nil => simp [floatTokWF] at h
  | cons c r =>
    rw [floatTokWF] at h
    by_cases hc : c = '-'
    · rw [if_pos hc] at h
      exact ⟨['-'], r, by rw [hc]; rfl, Or.inr rfl, h⟩
    · rw [if_neg hc] at h
      exact ⟨[], c :: r, rfl, Or.inl rfl, h⟩

theorem floatTok_text_ne_nil (f : FloatTok) : f.text ≠ [] := by
  intro h
  have := f.ok
  rw [h] at this
  simp [floatTokWF] at this

theorem getLast?_mem_self (l : List Char) (a : Char) (h : l.getLast? = some a) : a ∈ l := by
  induction l with
  | nil => simp at h
  | cons c t ih =>
    cases t with
    | nil =>
      simp only [List.getLast?_singleton, Option.some.injEq] at h
      simp [h]
    | cons d t2 =>
      rw [List.getLast?_cons_cons] at h
      exact List.mem_cons_of_mem _ (ih h)

theorem digits_getLast (d : Char) (B : List Char) (hd : d.isDigit = true)
    (hB : ∀ x ∈ B, x.isDigit = true) :
    ∃ c, (d :: B).getLast? = some c ∧ c.isDigit = true := by
  cases hl : (d :: B).getLast? with
  | none => simp at hl
  | some c =>
    refine ⟨c, rfl, ?_⟩
    have hmem : c ∈ d :: B := getLast?_mem_self _ c hl
    rcases List.mem_cons.mp hmem with h | h
    · subst h
      exact hd
    · exact hB c h

/-- A float token starts with its sign or a digit. -/
theorem floatTokWF_head_char (t : List Char) (h : floatTokWF t = true) :
    ∃ c r, t = c :: r ∧ (c = '-' ∨ c.isDigit = true) := by
  obtain ⟨sgn, body, ht, hsgn, hb⟩ := floatTokWF_decomp t h
  obtain ⟨c, rb, hbody, hc⟩ := floatIntWF_head body hb
  rcases hsgn with h0 | h1
  · refine ⟨c, rb, ?_, Or.inr hc⟩
    rw [ht, h0, hbody]
    rfl
  · refine ⟨'-', body, ?_, Or.inl rfl⟩
    rw [ht, h1]
    rfl

/-- A float token ends with a digit (of its fraction or exponent). -/
theorem floatTokWF_last (t : List Char) (h : floatTokWF t = true) :
    ∃ c, t.getLast? = some c ∧ c.isDigit = true := by
  obtain ⟨sgn, body, ht, hbody2, hb⟩ := floatTokWF_decomp t h
  obtain ⟨cI, A, m, hbody, hcI, hA, h0, hm⟩ := floatIntWF_decomp body hb
  obtain ⟨mf, mx, hmsplit, hmf, hmx, hboth⟩ := fracExpWF_decomp m hm
  rcases hmx with hmxnil | hmxreq
  · subst hmxnil
    rcases hmf with hmfnil | hmfx
    · exact absurd (hboth hmfnil) (by simp [expReqWF])
    · obtain ⟨d, B, hmf2, hd, hB⟩ := hmfx
      obtain ⟨c, hc, hcd⟩ := digits_getLast d B hd hB
      refine ⟨c, ?_, hcd⟩
      rw [ht, hbody, hmsplit, hmf2, List.append_nil,
        List.getLast?_append_of_ne_nil sgn (by simp),
        show cI :: (A ++ '.' :: d :: B) = [cI] ++ (A ++ '.' :: d :: B) from rfl,
        List.getLast?_append_of_ne_nil [cI] (by simp),
        List.getLast?_append_of_ne_nil A (by simp),
        show '.' :: d :: B = ['.'] ++ d :: B from rfl,
        List.getLast?_append_of_ne_nil ['.'] (by simp)]
      exact hc
  · obtain ⟨ec, sg, d, B, hmx2, hec, hsg, hd, hB⟩ := expReqWF_decomp mx hmxreq
    obtain ⟨c, hc, hcd⟩ := digits_getLast d B hd hB
    refine ⟨c, ?_, hcd⟩
    rw [ht, hbody, hmsplit, hmx2,
      List.getLast?_append_of_ne_nil sgn (by simp),
      show cI :: (A ++ (mf ++ ec :: (sg ++ d :: B)))
        = [cI] ++ (A ++ (mf ++ ec :: (sg ++ d :: B))) from rfl,
      List.getLast?_append_of_ne_nil [cI] (by simp),
      List.getLast?_append_of_ne_nil A (by simp),
      List.getLast?_append_of_ne_nil mf (by simp),
      show ec :: (sg ++ d :: B) = [ec] ++ (sg ++ d :: B) from rfl,
      List.getLast?_append_of_ne_nil [ec] (by simp),
      List.getLast?_append_of_ne_nil sg (by simp)]
    exact hc

/-- Every character of a float token is a digit or one of `-+.eE`. -/
theorem floatTokWF_chars (t : List Char) (h : floatTokWF t = true) :
    ∀ x ∈ t, x.isDigit = true ∨ x = '-' ∨ x = '+' ∨ x = '.' ∨ x = 'e' ∨ x = 'E' := by
  obtain ⟨sgn, body, ht, hsgn, hb⟩ := floatTokWF_decomp t h
  obtain ⟨cI, A, m, hbody, hcI, hA, -, hm⟩ := floatIntWF_decomp body hb
  obtain ⟨mf, mx, hmsplit, hmf, hmx, -⟩ := fracExpWF_decomp m hm
  intro x hx
  rw [ht, hbody, hmsplit] at hx
  rcases List.mem_append.mp hx with hx | hx
  · rcases hsgn with h0 | h1
    · subst h0
      simp at hx
    · subst h1
      simp only [List.mem_singleton] at hx
      exact Or.inr (Or.inl hx)
  · rcases List.mem_cons.mp hx with hx | hx
    · subst hx
      exact Or.inl hcI
    · rcases List.mem_append.mp hx with hx | hx
      · exact Or.inl (hA x hx)
      · rcases List.mem_append.mp hx with hx | hx
        · rcases hmf with hmfnil | ⟨d, B, hmf2, hd, hB⟩
          · subst hmfnil
            simp at hx
          · rw [hmf2] at hx
            rcases List.mem_cons.mp hx with hx | hx
            · subst hx
              exact Or.inr (Or.inr (Or.inr (Or.inl rfl)))
            · rcases List.mem_cons.mp hx with hx | hx
              · subst hx
                exact Or.inl hd
              · exact Or.inl (hB x hx)
        · rcases hmx with hmxnil | hmxreq
          · subst hmxnil
            simp at hx
          · obtain ⟨ec, sg, d, B, hmx2, hec, hsg2, hd, hB⟩ := expReqWF_decomp mx hmxreq
            rw [hmx2] at hx
            rcases List.mem_cons.mp hx with hx | hx
            · subst hx
              exact Or.inr (Or.inr (Or.inr (Or.inr hec)))
            · rcases List.mem_append.mp hx with hx | hx
              · rcases hsg2 with hsg | hsg | hsg
                · subst hsg
                  simp at hx
                · subst hsg
                  simp only [List.mem_singleton] at hx
                  subst hx
                  exact Or.inr (Or.inr (Or.inl rfl))
                · subst hsg
                  simp only [List.mem_singleton] at hx
                  subst hx
                  exact Or.inr (Or.inl rfl)
              · rcases List.mem_cons.mp hx with hx | hx
                · subst hx
                  exact Or.inl hd
                · exact Or.inl (hB x hx)

/-! ### String escaping inverts through `jparseStrBody` -/

theorem hexVal_digitChar (d : Nat) (h : d < 16) : hexVal (Nat.digitChar d) = some d := by
  interval_cases d <;> decide

theorem jparseStrBody_escapeChar (c : Char) (rest : List Char) :
    jparseStrBody (escapeChar c ++ rest)
      = (jparseStrBody rest).map (fun p => (c :: p.1, p.2)) := by
  have hval : c.toNat < 55296 ∨ (57344 ≤ c.toNat ∧ c.toNat < 1114112) := by
    have h := c.valid
    unfold UInt32.isValidChar Nat.isValidChar at h
    rcases h with h | ⟨ha, hb⟩
    · exact Or.inl h
    · exact Or.inr ⟨ha, hb⟩
  by_cases h1 : c = '"'
  · subst h1; rfl
  by_cases h2 : c = '\\'
  · subst h2; rfl
  by_cases h3 : c = '\n'
  · subst h3; rfl
  by_cases h4 : c = '\t'
  · subst h4; rfl
  by_cases h5 : c = '\r'
  · subst h5; rfl
  by_cases h6 : c = '\x08'
  · subst h6; rfl
  by_cases h7 : c = '\x0c'
  · subst h7; rfl
  rw [escapeChar, if_neg h1, if_neg h2, if_neg h3, if_neg h4, if_neg h5, if_neg h6,
    if_neg h7]
  by_cases h8 : c.toNat < 32
  · rw [if_pos h8]
    have e1 : hexVal (Nat.digitChar (c.toNat / 4096 % 16)) = some (c.toNat / 4096 % 16) :=
      hexVal_digitChar _ (Nat.mod_lt _ (by omega))
    have e2 : hexVal (Nat.digitChar (c.toNat / 256 % 16)) = some (c.toNat / 256 % 16) :=
      hexVal_digitChar _ (Nat.mod_lt _ (by omega))
    have e3 : hexVal (Nat.digitChar (c.toNat / 16 % 16)) = some (c.toNat / 16 % 16) :=
      hexVal_digitChar _ (Nat.mod_lt _ (by omega))
    have e4 : hexVal (Nat.digitChar (c.toNat % 16)) = some (c.toNat % 16) :=
      hexVal_digitChar _ (Nat.mod_lt _ (by omega))
    show jparseStrBody ('\\' :: 'u' :: Nat.digitChar (c.toNat / 4096 % 16)
        :: Nat.digitChar (c.toNat / 256 % 16) :: Nat.digitChar (c.toNat / 16 % 16)
        :: Nat.digitChar (c.toNat % 16) :: rest) = _
    rw [jparseStrBody, e1, e2, e3, e4]
    dsimp only
    have hu : ((c.toNat / 4096 % 16 * 16 + c.toNat / 256 % 16) * 16 + c.toNat / 16 % 16)
        * 16 + c.toNat % 16 = c.toNat := by omega
    rw [hu, if_neg (by omega), if_neg (by omega), Char.ofNat_toNat]
  rw [if_neg h8]
  by_cases h9 : c.toNat ≤ 126
  · rw [if_pos h9, List.singleton_append, jparseStrBody.eq_def]
    split
    all_goals first
      | (exfalso; simp_all; done)
      | (rename_i heq
         obtain ⟨rfl, rfl⟩ := heq
         rw [if_neg h8])
  rw [if_neg h9]
  by_cases h10 : c.toNat < 65536
  · rw [if_pos h10]
    have e1 : hexVal (Nat.digitChar (c.toNat / 4096 % 16)) = some (c.toNat / 4096 % 16) :=
      hexVal_digitChar _ (Nat.mod_lt _ (by omega))
    have e2 : hexVal (Nat.digitChar (c.toNat / 256 % 16)) = some (c.toNat / 256 % 16) :=
      hexVal_digitChar _ (Nat.mod_lt _ (by omega))
    have e3 : hexVal (Nat.digitChar (c.toNat / 16 % 16)) = some (c.toNat / 16 % 16) :=
      hexVal_digitChar _ (Nat.mod_lt _ (by omega))
    have e4 : hexVal (Nat.digitChar (c.toNat % 16)) = some (c.toNat % 16) :=
      hexVal_digitChar _ (Nat.mod_lt _ (by omega))
    show jparseStrBody ('\\' :: 'u' :: Nat.digitChar (c.toNat / 4096 % 16)
        :: Nat.digitChar (c.toNat / 256 % 16) :: Nat.digitChar (c.toNat / 16 % 16)
        :: Nat.digitChar (c.toNat % 16) :: rest) = _
    rw [jparseStrBody, e1, e2, e3, e4]
    dsimp only
    have hu : ((c.toNat / 4096 % 16 * 16 + c.toNat / 256 % 16) * 16 + c.toNat / 16 % 16)
        * 16 + c.toNat % 16 = c.toNat := by omega
    rw [hu, if_neg (by rcases hval with h | h <;> omega),
      if_neg (by rcases hval with h | h <;> omega), Char.ofNat_toNat]
  rw [if_neg h10]
  have hcv : 65536 ≤ c.toNat ∧ c.toNat < 1114112 := by
    rcases hval with h | ⟨ha, hb⟩
    · omega
    · omega
  have e1 : hexVal (Nat.digitChar ((55296 + (c.toNat - 65536) / 1024) / 4096 % 16))
      = some ((55296 + (c.toNat - 65536) / 1024) / 4096 % 16) :=
    hexVal_digitChar _ (Nat.mod_lt _ (by omega))
  have e2 : hexVal (Nat.digitChar ((55296 + (c.toNat - 65536) / 1024) / 256 % 16))
      = some ((55296 + (c.toNat - 65536) / 1024) / 256 % 16) :=
    hexVal_digitChar _ (Nat.mod_lt _ (by omega))
  have e3 : hexVal (Nat.digitChar ((55296 + (c.toNat - 65536) / 1024) / 16 % 16))
      = some ((55296 + (c.toNat - 65536) / 1024) / 16 % 16) :=
    hexVal_digitChar _ (Nat.mod_lt _ (by omega))
  have e4 : hexVal (Nat.digitChar ((55296 + (c.toNat - 65536) / 1024) % 16))
      = some ((55296 + (c.toNat - 65536) / 1024) % 16) :=
    hexVal_digitChar _ (Nat.mod_lt _ (by omega))
  have e5 : hexVal (Nat.digitChar ((56320 + (c.toNat - 65536) % 1024) / 4096 % 16))
      = some ((56320 + (c.toNat - 65536) % 1024) / 4096 % 16) :=
    hexVal_digitChar _ (Nat.mod_lt _ (by omega))
  have e6 : hexVal (Nat.digitChar ((56320 + (c.toNat - 65536) % 1024) / 256 % 16))
      = some ((56320 + (c.toNat - 65536) % 1024) / 256 % 16) :=
    hexVal_digitChar _ (Nat.mod_lt _ (by omega))
  have e7 : hexVal (Nat.digitChar ((56320 + (c.toNat - 65536) % 1024) / 16 % 16))
      = some ((56320 + (c.toNat - 65536) % 1024) / 16 % 16) :=
    hexVal_digitChar _ (Nat.mod_lt _ (by omega))
  have e8 : hexVal (Nat.digitChar ((56320 + (c.toNat - 65536) % 1024) % 16))
      = some ((56320 + (c.toNat - 65536) % 1024) % 16) :=
    hexVal_digitChar _ (Nat.mod_lt _ (by omega))
  show jparseStrBody ('\\' :: 'u'
      :: Nat.digitChar ((55296 + (c.toNat - 65536) / 1024) / 4096 % 16)
      :: Nat.digitChar ((55296 + (c.toNat - 65536) / 1024) / 256 % 16)
      :: Nat.digitChar ((55296 + (c.toNat - 65536) / 1024) / 16 % 16)
      :: Nat.digitChar ((55296 + (c.toNat - 65536) / 1024) % 16)
      :: '\\' :: 'u'
      :: Nat.digitChar ((56320 + (c.toNat - 65536) % 1024) / 4096 % 16)
      :: Nat.digitChar ((56320 + (c.toNat - 65536) % 1024) / 256 % 16)
      :: Nat.digitChar ((56320 + (c.toNat - 65536) % 1024) / 16 % 16)
      :: Nat.digitChar ((56320 + (c.toNat - 65536) % 1024) % 16) :: rest) = _
  rw [jparseStrBody, e1, e2, e3, e4]
  dsimp only
  have hu1 : (((55296 + (c.toNat - 65536) / 1024) / 4096 % 16 * 16
      + (55296 + (c.toNat - 65536) / 1024) / 256 % 16) * 16
      + (55296 + (c.toNat - 65536) / 1024) / 16 % 16) * 16
      + (55296 + (c.toNat - 65536) / 1024) % 16
      = 55296 + (c.toNat - 65536) / 1024 := by omega
  rw [hu1, if_pos (by omega)]
  rw [jparseLowSur, e5, e6, e7, e8]
  dsimp only
  have hu2 : (((56320 + (c.toNat - 65536) % 1024) / 4096 % 16 * 16
      + (56320 + (c.toNat - 65536) % 1024) / 256 % 16) * 16
      + (56320 + (c.toNat - 65536) % 1024) / 16 % 16) * 16
      + (56320 + (c.toNat - 65536) % 1024) % 16
      = 56320 + (c.toNat - 65536) % 1024 := by omega
  rw [hu2, if_pos (by omega)]
  have hu3 : 65536 + (55296 + (c.toNat - 65536) / 1024 - 55296) * 1024
      + (56320 + (c.toNat - 65536) % 1024 - 56320) = c.toNat := by omega
  rw [hu3, Char.ofNat_toNat]

theorem jparseStrBody_escStr (s : List Char) : ∀ (rest : List Char),
    jparseStrBody (escStr s ++ '"' :: rest) = some (s, rest) := by
  induction s with
  | nil => intro rest; rfl
  | cons c cs ih =>
    intro rest
    rw [escStr, List.append_assoc, jparseStrBody_escapeChar, ih rest]
    rfl

/-! ### Heads and tails of rendered JSON -/

theorem isDigit_ne (c x : Char) (h : c.isDigit = true) (hx : x.isDigit = false) : c ≠ x := by
  intro hc
  subst hc
  simp [h] at hx

theorem digit_not_ws (c : Char) (h : c.isDigit = true) : jWs c = false ∧ pyWs c = false := by
  refine ⟨?_, ?_⟩
  · simp only [jWs, Bool.or_eq_false_iff, beq_eq_false_iff_ne]
    exact ⟨⟨⟨isDigit_ne c ' ' h (by decide), isDigit_ne c '\t' h (by decide)⟩,
      isDigit_ne c '\n' h (by decide)⟩, isDigit_ne c '\r' h (by decide)⟩
  · simp only [pyWs, Bool.or_eq_false_iff, beq_eq_false_iff_ne]
    exact ⟨⟨⟨⟨⟨isDigit_ne c ' ' h (by decide), isDigit_ne c '\t' h (by decide)⟩,
      isDigit_ne c '\n' h (by decide)⟩, isDigit_ne c '\r' h (by decide)⟩,
      isDigit_ne c '\x0b' h (by decide)⟩, isDigit_ne c '\x0c' h (by decide)⟩

/-- Rendered JSON starts with a non-whitespace character that closes
neither an array nor an object. -/
theorem dumpsVal_head (v : JVal) :
    ∃ c t, dumpsVal v = c :: t ∧ jWs c = false ∧ pyWs c = false ∧ c ≠ ']' ∧ c ≠ '\x7d' := by
  cases v with
  | null => exact ⟨'n', _, rfl, by decide, by decide, by decide, by decide⟩
  | bool b =>
    cases b with
    | false => exact ⟨'f', _, rfl, by decide, by decide, by decide, by decide⟩
    | true => exact ⟨'t', _, rfl, by decide, by decide, by decide, by decide⟩
  | num i =>
    rw [show dumpsVal (.num i) = intChars i from rfl, intChars]
    by_cases hi : i < 0
    · rw [if_pos hi]
      exact ⟨'-', _, rfl, by decide, by decide, by decide, by decide⟩
    · rw [if_neg hi]
      obtain ⟨c, t, hct⟩ := List.exists_cons_of_ne_nil (natChars_ne_nil i.natAbs)
      have hc : c.isDigit = true := natChars_digits _ c (hct ▸ List.mem_cons_self c t)
      obtain ⟨hws1, hws2⟩ := digit_not_ws c hc
      exact ⟨c, t, hct, hws1, hws2, isDigit_ne c ']' hc (by decide),
        isDigit_ne c '\x7d' hc (by decide)⟩
  | fnum f =>
    rw [show dumpsVal (.fnum f) = f.text from rfl]
    obtain ⟨c, r, hct, hc⟩ := floatTokWF_head_char f.text f.ok
    rcases hc with hc | hc
    · subst hc
      exact ⟨'-', r, hct, by decide, by decide, by decide, by decide⟩
    · exact ⟨c, r, hct, (digit_not_ws c hc).1, (digit_not_ws c hc).2,
        isDigit_ne c ']' hc (by decide), isDigit_ne c '\x7d' hc (by decide)⟩
  | str s => exact ⟨'"', _, rfl, by decide, by decide, by decide, by decide⟩
  | arr es => exact ⟨'[', _, rfl, by decide, by decide, by decide, by decide⟩
  | obj fs => exact ⟨'\x7b', _, rfl, by decide, by decide, by decide, by decide⟩

theorem dumpsVal_ne_nil (v : JVal) : dumpsVal v ≠ [] := by
  obtain ⟨c, t, hct, _⟩ := dumpsVal_head v
  simp [hct]

theorem natChars_last (n : Nat) :
    ∃ c, (natChars n).getLast? = some c ∧ c.isDigit = true := by
  by_cases h : n = 0
  · subst h; exact ⟨'0', rfl, by decide⟩
  · rw [natChars, if_neg h]
    match n, h with
    | n + 1, _ =>
      rw [List.getLast?_reverse, natDigitsLSD_succ]
      exact ⟨_, rfl, digitChar_isDigit _ (Nat.mod_lt _ (by omega))⟩

/-- Rendered JSON ends with a non-whitespace character. -/
theorem dumpsVal_last (v : JVal) :
    ∃ c, (dumpsVal v).getLast? = some c ∧ pyWs c = false := by
  cases v with
  | null => exact ⟨'l', rfl, by decide⟩
  | bool b =>
    cases b with
    | false => exact ⟨'e', rfl, by decide⟩
    | true => exact ⟨'e', rfl, by decide⟩
  | num i =>
    rw [show dumpsVal (.num i) = intChars i from rfl, intChars]
    obtain ⟨c, hc, hdig⟩ := natChars_last i.natAbs
    by_cases hi : i < 0
    · rw [if_pos hi]
      refine ⟨c, ?_, (digit_not_ws c hdig).2⟩
      rw [show '-' :: natChars i.natAbs = ['-'] ++ natChars i.natAbs from rfl,
        List.getLast?_append_of_ne_nil ['-'] (natChars_ne_nil i.natAbs)]
      exact hc
    · rw [if_neg hi]
      exact ⟨c, hc, (digit_not_ws c hdig).2⟩
  | fnum f =>
    rw [show dumpsVal (.fnum f) = f.text from rfl]
    obtain ⟨c, hc, hcd⟩ := floatTokWF_last f.text f.ok
    exact ⟨c, hc, (digit_not_ws c hcd).2⟩
  | str s =>
    refine ⟨'"', ?_, by decide⟩
    rw [show dumpsVal (.str s) = ('"' :: escStr s.data) ++ ['"'] from by
      simp [dumpsVal, dumpsStr], List.getLast?_concat]
  | arr es =>
    refine ⟨']', ?_, by decide⟩
    rw [show dumpsVal (.arr es) = ('[' :: dumpsElems es) ++ [']'] from by
      simp [dumpsVal], List.getLast?_concat]
  | obj fs =>
    refine ⟨'\x7d', ?_, by decide⟩
    rw [show dumpsVal (.obj fs) = ('\x7b' :: dumpsFields fs) ++ ['\x7d'] from by
      simp [dumpsVal], List.getLast?_concat]

theorem skipWs_cons_false (c : Char) (t : List Char) (h : jWs c = false) :
    skipWs (c :: t) = c :: t := by
  simp [skipWs, h]

theorem skipWs_dumps (v : JVal) (x : List Char) :
    skipWs (dumpsVal v ++ x) = dumpsVal v ++ x := by
  obtain ⟨c, t, hct, hws, _⟩ := dumpsVal_head v
  rw [hct, List.cons_append, skipWs_cons_false _ _ hws]

/-- Stripping a rendered document plus its newline frame recovers exactly
the document (it neither starts nor ends with whitespace). -/
theorem pyStrip_dumps_newline (v : JVal) (x : List Char) (hx : ∀ c ∈ x, pyWs c = true) :
    pyStrip (dumpsVal v ++ x) = dumpsVal v := by
  obtain ⟨c, t, hct, _, hpws, _, _⟩ := dumpsVal_head v
  obtain ⟨c2, hlast, hpws2⟩ := dumpsVal_last v
  rw [pyStrip, hct, List.cons_append, List.dropWhile_cons, if_neg (by simp [hpws]),
    ← List.cons_append, ← hct, List.reverse_append, List.dropWhile_append]
  have hxrev : x.reverse.dropWhile pyWs = [] := by
    rw [List.dropWhile_eq_nil_iff]
    intro c3 hc3
    exact hx c3 (List.mem_reverse.mp hc3)
  rw [hxrev]
  simp only [List.isEmpty_nil, if_true]
  have hrevne : (dumpsVal v).reverse ≠ [] := by
    simp [dumpsVal_ne_nil v]
  obtain ⟨c4, t4, hct4⟩ := List.exists_cons_of_ne_nil hrevne
  have hc4 : c4 = c2 := by
    have h1 := List.head?_reverse (dumpsVal v)
    rw [hct4, hlast] at h1
    simpa using h1
  rw [hct4, List.dropWhile_cons, if_neg (by simp [hc4, hpws2]), ← hct4,
    List.reverse_reverse]

/-! ### The codec round-trip: `jparse` inverts `dumpsVal` -/

theorem stringMk_data (s : String) : String.mk s.data = s := by
  cases s
  rfl

theorem intChars_ne_nil (i : Int) : intChars i ≠ [] := by
  rw [intChars]
  by_cases hi : i < 0
  · simp [hi]
  · simpa [hi] using natChars_ne_nil i.natAbs

mutual
/-- Fuel sufficient for `jparse` to consume one rendered value. -/
def jsize : JVal → Nat
  | .null => 1
  | .bool _ => 1
  | .num _ => 1
  | .fnum _ => 1
  | .str _ => 1
  | .arr es => 1 + isize es
  | .obj fs => 1 + psize fs
termination_by structural v => v
/-- Fuel sufficient for `jparseItems` on rendered array items. -/
def isize : List JVal → Nat
  | [] => 0
  | e :: es => 1 + jsize e + isize es
termination_by structural l => l
/-- Fuel sufficient for `jparsePairs` on rendered object fields. -/
def psize : List (String × JVal) → Nat
  | [] => 0
  | (_, v) :: fs => 1 + jsize v + psize fs
termination_by structural l => l
end

/-- A value whose input starts with a digit is parsed by the number
scanner. -/
theorem jparse_digit_head (f : Nat) (c : Char) (t : List Char) (hc : c.isDigit = true) :
    jparse (f + 1) (c :: t) = jparseNum [] (c :: t) := by
  rw [jparse.eq_def]
  dsimp only
  split
  all_goals first
    | (exact absurd hc (by decide))
    | (rw [if_pos hc])
    | (rename_i heq
       injection heq with h1 h2
       subst h1
       first
         | exact absurd hc (by decide)
         | (subst h2; rw [if_pos hc]))
    | (rename_i heq; injection heq)

theorem natDigitsLSD_ne_nil (n : Nat) (h : n ≠ 0) : natDigitsLSD n ≠ [] := by
  match n, h with
  | n + 1, _ =>
    rw [natDigitsLSD_succ]
    simp

theorem natDigitsLSD_getLast : ∀ (n : Nat), n ≠ 0 →
    ∃ d, (natDigitsLSD n).getLast? = some (Nat.digitChar d) ∧ 1 ≤ d ∧ d < 10 := by
  intro n
  induction n using Nat.strong_induction_on with
  | _ n ih =>
    intro h
    cases n with
    | zero => exact absurd rfl h
    | succ m =>
      rw [natDigitsLSD_succ]
      by_cases hq : (m + 1) / 10 = 0
      · refine ⟨(m + 1) % 10, ?_, by omega, Nat.mod_lt _ (by omega)⟩
        rw [hq]
        simp [natDigitsLSD, natDigitsAux]
      · obtain ⟨d, hd, hd1, hd2⟩ :=
          ih ((m + 1) / 10) (Nat.div_lt_self (by omega) (by omega)) hq
        refine ⟨d, ?_, hd1, hd2⟩
        obtain ⟨c2, t2, hct⟩ := List.exists_cons_of_ne_nil (natDigitsLSD_ne_nil _ hq)
        rw [hct, List.getLast?_cons_cons, ← hct, hd]

theorem digitChar_ne_zero (d : Nat) (h1 : 1 ≤ d) (h2 : d < 10) :
    Nat.digitChar d ≠ '0' := by
  interval_cases d <;> decide

/-- `str` of a positive int starts with a nonzero digit — so the scanner's
no-leading-zeros integer grammar accepts every rendered int. -/
theorem natChars_head_nonzero (n : Nat) (h : n ≠ 0) :
    ∃ c t, natChars n = c :: t ∧ c.isDigit = true ∧ c ≠ '0' := by
  rw [natChars, if_neg h]
  obtain ⟨d, hd, hd1, hd2⟩ := natDigitsLSD_getLast n h
  have hrevne : (natDigitsLSD n).reverse ≠ [] := by
    simpa using natDigitsLSD_ne_nil n h
  obtain ⟨c, t, hct⟩ := List.exists_cons_of_ne_nil hrevne
  have hh := List.head?_reverse (natDigitsLSD n)
  rw [hct, hd] at hh
  simp only [List.head?_cons, Option.some.injEq] at hh
  subst hh
  exact ⟨_, t, hct, digitChar_isDigit d (by omega), digitChar_ne_zero d hd1 hd2⟩

/-! ### The number scanner consumes exactly a rendered int or float token -/

theorem parseFrac_notDot (c : Char) (t : List Char) (h : c ≠ '.') :
    parseFrac (c :: t) = ([], c :: t) := by
  rw [parseFrac.eq_def]
  dsimp only
  rw [if_neg h]

theorem parseFrac_sep (l : List Char) (h : numSep l = true) : parseFrac l = ([], l) := by
  cases l with
  | nil => rfl
  | cons c t =>
    obtain ⟨-, hdot, -, -⟩ := numSep_facts c t h
    exact parseFrac_notDot c t hdot

theorem parseFrac_run (d : Char) (B after : List Char) (hd : d.isDigit = true)
    (hB : ∀ x ∈ B, x.isDigit = true) (hafter : noDigitHead after = true) :
    parseFrac ('.' :: d :: (B ++ after)) = ('.' :: d :: B, after) := by
  rw [parseFrac.eq_def]
  dsimp only
  rw [if_pos rfl, if_pos hd]
  obtain ⟨ht, hdr⟩ := takeWhile_digits_append B after hB hafter
  rw [ht, hdr]

theorem parseExpDigits_run (d : Char) (B after : List Char) (hd : d.isDigit = true)
    (hB : ∀ x ∈ B, x.isDigit = true) (hafter : noDigitHead after = true) :
    parseExpDigits (d :: (B ++ after)) = some (d :: B, after) := by
  rw [parseExpDigits.eq_def]
  dsimp only
  rw [if_pos hd]
  obtain ⟨ht, hdr⟩ := takeWhile_digits_append B after hB hafter
  rw [ht, hdr]

theorem parseExpTail_run (sg : List Char) (d : Char) (B after : List Char)
    (hsg : sg = [] ∨ sg = ['+'] ∨ sg = ['-']) (hd : d.isDigit = true)
    (hB : ∀ x ∈ B, x.isDigit = true) (hafter : noDigitHead after = true) :
    parseExpTail (sg ++ d :: (B ++ after)) = some (sg ++ d :: B, after) := by
  rcases hsg with hsg | hsg | hsg <;> subst hsg
  · rw [show ([] : List Char) ++ d :: (B ++ after) = d :: (B ++ after) from rfl,
      parseExpTail.eq_def]
    dsimp only
    have hnpm : ¬(d = '+' ∨ d = '-') := by
      rintro (h2 | h2)
      · exact isDigit_ne d '+' hd (by decide) h2
      · exact isDigit_ne d '-' hd (by decide) h2
    rw [if_neg hnpm, parseExpDigits_run d B after hd hB hafter]
    rfl
  · rw [show ['+'] ++ d :: (B ++ after) = '+' :: (d :: (B ++ after)) from rfl,
      parseExpTail.eq_def]
    dsimp only
    rw [if_pos (Or.inl rfl), parseExpDigits_run d B after hd hB hafter]
    rfl
  · rw [show ['-'] ++ d :: (B ++ after) = '-' :: (d :: (B ++ after)) from rfl,
      parseExpTail.eq_def]
    dsimp only
    rw [if_pos (Or.inr rfl), parseExpDigits_run d B after hd hB hafter]
    rfl

theorem parseExp_sep (l : List Char) (h : numSep l = true) : parseExp l = ([], l) := by
  cases l with
  | nil => rfl
  | cons c t =>
    obtain ⟨-, -, he, hE⟩ := numSep_facts c t h
    have hno : ¬(c = 'e' ∨ c = 'E') := by
      rintro (h2 | h2)
      · exact he h2
      · exact hE h2
    rw [parseExp.eq_def]
    dsimp only
    rw [if_neg hno]

theorem parseExp_run (mx after : List Char) (h : expReqWF mx = true)
    (hafter : noDigitHead after = true) :
    parseExp (mx ++ after) = (mx, after) := by
  obtain ⟨ec, sg, d, B, hmx, hec, hsg, hd, hB⟩ := expReqWF_decomp mx h
  subst hmx
  rw [show (ec :: (sg ++ d :: B)) ++ after = ec :: ((sg ++ d :: B) ++ after) from rfl,
    parseExp.eq_def]
  dsimp only
  rw [if_pos hec, show (sg ++ d :: B) ++ after = sg ++ d :: (B ++ after) from by simp,
    parseExpTail_run sg d B after hsg hd hB hafter]

theorem fracExp_parse (m rest : List Char) (h : fracExpWF m = true)
    (hrest : numSep rest = true) :
    ∃ mf mx, m = mf ++ mx
      ∧ parseFrac (m ++ rest) = (mf, mx ++ rest)
      ∧ parseExp (mx ++ rest) = (mx, rest)
      ∧ (mf.isEmpty && mx.isEmpty) = false := by
  obtain ⟨mf, mx, hm, hmf, hmx, hboth⟩ := fracExpWF_decomp m h
  subst hm
  rcases hmf with hmfnil | hmfx
  · subst hmfnil
    have hexp : expReqWF mx = true := hboth rfl
    obtain ⟨ec, rx, hmx2, hec⟩ := expReqWF_head mx hexp
    refine ⟨[], mx, by simp, ?_, ?_, ?_⟩
    · rw [show (([] : List Char) ++ mx) ++ rest = mx ++ rest from by simp, hmx2,
        show (ec :: rx) ++ rest = ec :: (rx ++ rest) from rfl]
      refine parseFrac_notDot ec _ ?_
      rcases hec with h2 | h2 <;> subst h2 <;> decide
    · exact parseExp_run mx rest hexp (numSep_noDigitHead rest hrest)
    · rw [hmx2]
      simp
  · obtain ⟨d, B, hmf2, hd, hB⟩ := hmfx
    subst hmf2
    have haft : noDigitHead (mx ++ rest) = true := by
      rcases hmx with hmxnil | hmxreq
      · subst hmxnil
        simpa using numSep_noDigitHead rest hrest
      · obtain ⟨ec, rx, hmx2, hec⟩ := expReqWF_head mx hmxreq
        rw [hmx2]
        rcases hec with h2 | h2 <;> subst h2 <;> rfl
    refine ⟨'.' :: d :: B, mx, rfl, ?_, ?_, by simp⟩
    · rw [show (('.' :: d :: B) ++ mx) ++ rest = '.' :: d :: (B ++ (mx ++ rest))
        from by simp]
      exact parseFrac_run d B (mx ++ rest) hd hB haft
    · rcases hmx with hmxnil | hmxreq
      · subst hmxnil
        rw [show ([] : List Char) ++ rest = rest from rfl]
        exact parseExp_sep rest hrest
      · exact parseExp_run mx rest hmxreq (numSep_noDigitHead rest hrest)

theorem jnumFinish_int (sgn ip rest : List Char) (hrest : numSep rest = true) :
    jnumFinish sgn ip rest = (.num (intOfParts sgn ip), rest) := by
  simp only [jnumFinish, parseFrac_sep rest hrest, parseExp_sep rest hrest]
  rfl

theorem jnumFinish_float (sgn ip m rest : List Char) (hm : fracExpWF m = true)
    (hrest : numSep rest = true) (hwf : floatTokWF (sgn ++ ip ++ m) = true) :
    jnumFinish sgn ip (m ++ rest) = (.fnum ⟨sgn ++ ip ++ m, hwf⟩, rest) := by
  obtain ⟨mf, mx, hm2, hfr, hex, hne⟩ := fracExp_parse m rest hm hrest
  have hassoc : sgn ++ ip ++ mf ++ mx = sgn ++ ip ++ m := by
    rw [hm2]
    exact List.append_assoc _ _ _
  have hE1 : sgn ++ ip ++ (parseFrac (m ++ rest)).1
      ++ (parseExp (parseFrac (m ++ rest)).2).1 = sgn ++ ip ++ m := by
    rw [hfr]
    dsimp only
    rw [hex]
    exact hassoc
  have hE2 : (parseExp (parseFrac (m ++ rest)).2).2 = rest := by
    rw [hfr]
    dsimp only
    rw [hex]
  simp only [jnumFinish]
  split
  · rename_i hcond
    rw [hfr] at hcond
    dsimp only at hcond
    rw [hex] at hcond
    dsimp only at hcond
    rw [hcond] at hne
    exact absurd hne (by decide)
  · split
    · rename_i htrue
      rw [hE2]
      exact congrArg (fun t => (JVal.fnum t, rest)) ((FloatTok.eq_iff _ _).mpr hE1)
    · rename_i hfalse
      rw [hE1, hwf] at hfalse
      exact absurd hfalse (by decide)

theorem jparseNum_float (sgn body rest : List Char) (hb : floatIntWF body = true)
    (hrest : numSep rest = true) (hwf : floatTokWF (sgn ++ body) = true) :
    jparseNum sgn (body ++ rest) = some (.fnum ⟨sgn ++ body, hwf⟩, rest) := by
  obtain ⟨c, A, m, hbody, hc, hA, h0, hm⟩ := floatIntWF_decomp body hb
  subst hbody
  rw [show (c :: (A ++ m)) ++ rest = c :: ((A ++ m) ++ rest) from rfl, jparseNum.eq_def]
  dsimp only
  by_cases hc0 : c = '0'
  · rw [if_pos hc0]
    have hA0 : A = [] := h0 hc0
    subst hA0
    subst hc0
    rw [show (([] : List Char) ++ m) ++ rest = m ++ rest from by simp]
    have hwf2 : floatTokWF (sgn ++ ['0'] ++ m) = true := by
      have heq : sgn ++ ['0'] ++ m = sgn ++ ('0' :: ([] ++ m)) := by simp
      rw [heq]
      exact hwf
    rw [jnumFinish_float sgn ['0'] m rest hm hrest hwf2]
    refine congrArg (fun t => some (JVal.fnum t, rest)) ((FloatTok.eq_iff _ _).mpr ?_)
    show sgn ++ ['0'] ++ m = sgn ++ ('0' :: ([] ++ m))
    simp
  · rw [if_neg hc0, if_pos hc]
    have hmane : noDigitHead (m ++ rest) = true := by
      obtain ⟨cm, rm, hm2, hcm⟩ := fracExpWF_head m hm
      rw [hm2]
      rcases hcm with h2 | h2 | h2 <;> subst h2 <;> rfl
    obtain ⟨ht, hdr⟩ := takeWhile_digits_append A (m ++ rest) hA hmane
    rw [show (A ++ m) ++ rest = A ++ (m ++ rest) from by simp, ht, hdr]
    have hwf2 : floatTokWF (sgn ++ (c :: A) ++ m) = true := by
      have heq : sgn ++ (c :: A) ++ m = sgn ++ (c :: (A ++ m)) := by simp
      rw [heq]
      exact hwf
    rw [jnumFinish_float sgn (c :: A) m rest hm hrest hwf2]
    refine congrArg (fun t => some (JVal.fnum t, rest)) ((FloatTok.eq_iff _ _).mpr ?_)
    show sgn ++ (c :: A) ++ m = sgn ++ (c :: (A ++ m))
    simp

theorem jparseNum_nat (sgn : List Char) (n : Nat) (rest : List Char)
    (hrest : numSep rest = true) :
    jparseNum sgn (natChars n ++ rest) = some (.num (intOfParts sgn (natChars n)), rest) := by
  by_cases hn : n = 0
  · subst hn
    rw [show natChars 0 = ['0'] from rfl,
      show (['0'] : List Char) ++ rest = '0' :: rest from rfl, jparseNum.eq_def]
    dsimp only
    rw [if_pos rfl, jnumFinish_int sgn ['0'] rest hrest]
  · obtain ⟨c, A, hct, hc, hc0⟩ := natChars_head_nonzero n hn
    have hA : ∀ x ∈ A, x.isDigit = true := by
      intro x hx
      refine natChars_digits n x ?_
      rw [hct]
      exact List.mem_cons_of_mem _ hx
    rw [hct, show (c :: A) ++ rest = c :: (A ++ rest) from rfl, jparseNum.eq_def]
    dsimp only
    rw [if_neg hc0, if_pos hc]
    obtain ⟨ht, hdr⟩ := takeWhile_digits_append A rest hA (numSep_noDigitHead rest hrest)
    rw [ht, hdr, jnumFinish_int sgn (c :: A) rest hrest]

theorem noDigitHead_comma (t : List Char) : noDigitHead (',' :: t) = true := rfl
theorem noDigitHead_rbracket (t : List Char) : noDigitHead (']' :: t) = true := rfl
theorem noDigitHead_rbrace (t : List Char) : noDigitHead ('\x7d' :: t) = true := rfl

theorem skipWs_dumpsElems_cons (e : JVal) (es : List JVal) (x : List Char) :
    skipWs (dumpsElems (e :: es) ++ x) = dumpsElems (e :: es) ++ x := by
  cases es with
  | nil => exact skipWs_dumps e x
  | cons e2 es2 =>
    rw [show dumpsElems (e :: e2 :: es2)
        = dumpsVal e ++ ',' :: ' ' :: dumpsElems (e2 :: es2) from rfl,
      List.append_assoc]
    exact skipWs_dumps e _

theorem skipWs_dumpsFields_cons (k : String) (v : JVal) (fs : List (String × JVal))
    (x : List Char) :
    skipWs (dumpsFields ((k, v) :: fs) ++ x) = dumpsFields ((k, v) :: fs) ++ x := by
  cases fs with
  | nil =>
    rw [show dumpsFields [(k, v)] = dumpsStr k ++ ':' :: ' ' :: dumpsVal v from rfl,
      List.append_assoc, dumpsStr, List.cons_append]
    exact skipWs_cons_false _ _ (by decide)
  | cons f2 fs2 =>
    rw [show dumpsFields ((k, v) :: f2 :: fs2)
        = dumpsStr k ++ ':' :: ' ' :: dumpsVal v ++ ',' :: ' ' :: dumpsFields (f2 :: fs2)
        from rfl, List.append_assoc, dumpsStr, List.cons_append]
    exact skipWs_cons_false _ _ (by decide)

theorem dumpsElems_cons_head (e : JVal) (es : List JVal) :
    ∃ x, dumpsElems (e :: es) = dumpsVal e ++ x := by
  cases es with
  | nil => exact ⟨[], by simp [dumpsElems]⟩
  | cons e2 es2 => exact ⟨',' :: ' ' :: dumpsElems (e2 :: es2), rfl⟩

theorem dumpsFields_cons_head (k : String) (v : JVal) (fs : List (String × JVal)) :
    ∃ x, dumpsFields ((k, v) :: fs) = '"' :: x := by
  cases fs with
  | nil =>
    refine ⟨escStr k.data ++ ('"' :: (':' :: ' ' :: dumpsVal v)), ?_⟩
    rw [show dumpsFields [(k, v)] = dumpsStr k ++ ':' :: ' ' :: dumpsVal v from rfl,
      dumpsStr]
    simp
  | cons f2 fs2 =>
    refine ⟨escStr k.data ++ ('"' :: (':' :: ' ' :: dumpsVal v
      ++ ',' :: ' ' :: dumpsFields (f2 :: fs2))), ?_⟩
    rw [show dumpsFields ((k, v) :: f2 :: fs2)
        = dumpsStr k ++ ':' :: ' ' :: dumpsVal v ++ ',' :: ' ' :: dumpsFields (f2 :: fs2)
        from rfl, dumpsStr]
    simp

mutual
/-- Parsing a rendered value consumes exactly it and returns it, whenever
the remainder cannot extend a number and the fuel covers the value. -/
theorem rt_val : ∀ (v : JVal) (fuel : Nat) (rest : List Char),
    jsize v ≤ fuel → numSep rest = true →
    jparse fuel (dumpsVal v ++ rest) = some (v, rest)
  | .null, fuel, rest, hf, _ => by
    cases fuel with
    | zero => exact absurd hf (by decide)
    | succ f => rfl
  | .bool true, fuel, rest, hf, _ => by
    cases fuel with
    | zero => exact absurd hf (by decide)
    | succ f => rfl
  | .bool false, fuel, rest, hf, _ => by
    cases fuel with
    | zero => exact absurd hf (by decide)
    | succ f => rfl
  | .num i, fuel, rest, hf, hr => by
    cases fuel with
    | zero =>
      rw [show jsize (.num i) = 1 from rfl] at hf
      omega
    | succ f =>
      rw [show dumpsVal (.num i) = intChars i from rfl, intChars]
      by_cases hi : i < 0
      · rw [if_pos hi, List.cons_append,
          show jparse (f + 1) ('-' :: (natChars i.natAbs ++ rest))
            = jparseNum ['-'] (natChars i.natAbs ++ rest) from rfl,
          jparseNum_nat ['-'] i.natAbs rest hr, intOfParts, if_neg (by decide),
          digitsVal_natChars]
        have hni : (-(i.natAbs : Int)) = i := by omega
        rw [hni]
      · rw [if_neg hi]
        obtain ⟨c, t, hct⟩ := List.exists_cons_of_ne_nil (natChars_ne_nil i.natAbs)
        have hc : c.isDigit = true := natChars_digits _ c (hct ▸ List.mem_cons_self c t)
        rw [hct, List.cons_append, jparse_digit_head f c _ hc, ← List.cons_append,
          ← hct, jparseNum_nat [] i.natAbs rest hr, intOfParts,
          if_pos (show ([] : List Char).isEmpty = true from rfl), digitsVal_natChars]
        have hni : ((i.natAbs : Nat) : Int) = i := by omega
        rw [hni]
  | .fnum fl, fuel, rest, hf, hr => by
    cases fuel with
    | zero =>
      rw [show jsize (.fnum fl) = 1 from rfl] at hf
      omega
    | succ f =>
      rw [show dumpsVal (.fnum fl) = fl.text from rfl]
      obtain ⟨sgn, body, htext, hsgn, hb⟩ := floatTokWF_decomp fl.text fl.ok
      have hwf : floatTokWF (sgn ++ body) = true := by
        rw [← htext]
        exact fl.ok
      rcases hsgn with h0 | h1
      · rw [htext, h0, show ([] : List Char) ++ body = body from rfl]
        obtain ⟨c, rb, hbody, hcd⟩ := floatIntWF_head body hb
        rw [hbody, List.cons_append, jparse_digit_head f c _ hcd, ← List.cons_append,
          ← hbody, jparseNum_float [] body rest hb hr (h0 ▸ hwf)]
        refine congrArg (fun t => some (JVal.fnum t, rest)) ((FloatTok.eq_iff _ _).mpr ?_)
        show ([] : List Char) ++ body = fl.text
        rw [htext, h0]
      · rw [htext, h1, show (['-'] ++ body) ++ rest = '-' :: (body ++ rest) from rfl,
          show jparse (f + 1) ('-' :: (body ++ rest))
            = jparseNum ['-'] (body ++ rest) from rfl,
          jparseNum_float ['-'] body rest hb hr (h1 ▸ hwf)]
        refine congrArg (fun t => some (JVal.fnum t, rest)) ((FloatTok.eq_iff _ _).mpr ?_)
        show ['-'] ++ body = fl.text
        rw [htext, h1]
  | .str s, fuel, rest, hf, _ => by
    cases fuel with
    | zero =>
      rw [show jsize (.str s) = 1 from rfl] at hf
      omega
    | succ f =>
      have harg : dumpsVal (.str s) ++ rest = '"' :: (escStr s.data ++ ('"' :: rest)) := by
        rw [show dumpsVal (.str s) = dumpsStr s from rfl, dumpsStr]
        simp
      rw [harg]
      have hstep : jparse (f + 1) ('"' :: (escStr s.data ++ ('"' :: rest)))
          = (jparseStrBody (escStr s.data ++ ('"' :: rest))).map
              (fun p => (.str (String.mk p.1), p.2)) := rfl
      rw [hstep, jparseStrBody_escStr]
      simp [stringMk_data]
  | .arr [], fuel, rest, hf, _ => by
    cases fuel with
    | zero => exact absurd hf (by decide)
    | succ f => rfl
  | .arr (e :: es), fuel, rest, hf, _ => by
    cases fuel with
    | zero =>
      rw [show jsize (.arr (e :: es)) = 1 + isize (e :: es) from rfl] at hf
      omega
    | succ f =>
      have harg : dumpsVal (.arr (e :: es)) ++ rest
          = '[' :: (dumpsElems (e :: es) ++ (']' :: rest)) := by
        rw [show dumpsVal (.arr (e :: es))
            = '[' :: (dumpsElems (e :: es) ++ [']']) from rfl]
        simp
      rw [harg]
      have hstep : jparse (f + 1) ('[' :: (dumpsElems (e :: es) ++ (']' :: rest)))
          = (match skipWs (dumpsElems (e :: es) ++ (']' :: rest)) with
             | ']' :: r2 => some (.arr [], r2)
             | r2 => (jparseItems f r2).map (fun p => (.arr p.1, p.2))) := rfl
      rw [hstep, skipWs_dumpsElems_cons]
      obtain ⟨c, t, hct, _, _, hne_rb, _⟩ := dumpsVal_head e
      obtain ⟨x, hx⟩ := dumpsElems_cons_head e es
      rw [hx, List.append_assoc, hct, List.cons_append]
      split
      · rename_i heq
        injection heq with h1 h2
        exact absurd h1 hne_rb
      · rw [← List.cons_append, ← hct, ← List.append_assoc, ← hx,
          rt_items (e :: es) f rest (by simp) (by
            rw [show jsize (.arr (e :: es)) = 1 + isize (e :: es) from rfl] at hf
            omega)]
        rfl
  | .obj [], fuel, rest, hf, _ => by
    cases fuel with
    | zero => exact absurd hf (by decide)
    | succ f => rfl
  | .obj ((k, v) :: fs), fuel, rest, hf, _ => by
    cases fuel with
    | zero =>
      rw [show jsize (.obj ((k, v) :: fs)) = 1 + psize ((k, v) :: fs) from rfl] at hf
      omega
    | succ f =>
      have harg : dumpsVal (.obj ((k, v) :: fs)) ++ rest
          = '\x7b' :: (dumpsFields ((k, v) :: fs) ++ ('\x7d' :: rest)) := by
        rw [show dumpsVal (.obj ((k, v) :: fs))
            = '\x7b' :: (dumpsFields ((k, v) :: fs) ++ ['\x7d']) from rfl]
        simp
      rw [harg]
      have hstep : jparse (f + 1) ('\x7b' :: (dumpsFields ((k, v) :: fs) ++ ('\x7d' :: rest)))
          = (match skipWs (dumpsFields ((k, v) :: fs) ++ ('\x7d' :: rest)) with
             | '\x7d' :: r2 => some (.obj [], r2)
             | r2 => (jparsePairs f r2).map (fun p => (.obj p.1, p.2))) := rfl
      rw [hstep, skipWs_dumpsFields_cons]
      obtain ⟨x, hx⟩ := dumpsFields_cons_head k v fs
      rw [hx, List.cons_append]
      split
      · rename_i heq
        injection heq with h1 h2
        exact absurd h1 (by decide)
      · rw [← List.cons_append, ← hx,
          rt_pairs ((k, v) :: fs) f rest (by simp) (by
            rw [show jsize (.obj ((k, v) :: fs)) = 1 + psize ((k, v) :: fs) from rfl] at hf
            omega)]
        rfl
termination_by structural v => v

/-- Parsing rendered array items (plus the closing bracket) recovers them. -/
theorem rt_items : ∀ (es : List JVal) (fuel : Nat) (rest : List Char),
    es ≠ [] → isize es ≤ fuel →
    jparseItems fuel (dumpsElems es ++ ']' :: rest) = some (es, rest)
  | [], _, _, hne, _ => absurd rfl hne
  | e :: es, fuel, rest, _, hf => by
    cases fuel with
    | zero =>
      rw [show isize (e :: es) = 1 + jsize e + isize es from rfl] at hf
      omega
    | succ f =>
      rw [show isize (e :: es) = 1 + jsize e + isize es from rfl] at hf
      cases es with
      | nil =>
        rw [show dumpsElems [e] = dumpsVal e from rfl]
        have hstep : jparseItems (f + 1) (dumpsVal e ++ ']' :: rest)
            = (match jparse f (dumpsVal e ++ ']' :: rest) with
               | none => none
               | some (v, r) =>
                 match skipWs r with
                 | ',' :: r2 => (jparseItems f (skipWs r2)).map (fun p => (v :: p.1, p.2))
                 | ']' :: r2 => some ([v], r2)
                 | _ => none) := rfl
        rw [hstep, rt_val e f (']' :: rest) (by omega) rfl]
        rfl
      | cons e2 es2 =>
        have harg : dumpsElems (e :: e2 :: es2) ++ ']' :: rest
            = dumpsVal e ++ (',' :: ' ' :: (dumpsElems (e2 :: es2) ++ ']' :: rest)) := by
          rw [show dumpsElems (e :: e2 :: es2)
              = dumpsVal e ++ ',' :: ' ' :: dumpsElems (e2 :: es2) from rfl]
          simp
        rw [harg]
        have hstep : jparseItems (f + 1)
              (dumpsVal e ++ (',' :: ' ' :: (dumpsElems (e2 :: es2) ++ ']' :: rest)))
            = (match jparse f (dumpsVal e
                  ++ (',' :: ' ' :: (dumpsElems (e2 :: es2) ++ ']' :: rest))) with
               | none => none
               | some (v, r) =>
                 match skipWs r with
                 | ',' :: r2 => (jparseItems f (skipWs r2)).map (fun p => (v :: p.1, p.2))
                 | ']' :: r2 => some ([v], r2)
                 | _ => none) := rfl
        rw [hstep, rt_val e f (',' :: ' ' :: (dumpsElems (e2 :: es2) ++ ']' :: rest))
          (by omega) rfl]
        show (jparseItems f (skipWs (' ' :: (dumpsElems (e2 :: es2) ++ ']' :: rest)))).map
            (fun p => (e :: p.1, p.2)) = some (e :: e2 :: es2, rest)
        rw [show skipWs (' ' :: (dumpsElems (e2 :: es2) ++ ']' :: rest))
            = skipWs (dumpsElems (e2 :: es2) ++ ']' :: rest) from rfl,
          skipWs_dumpsElems_cons,
          rt_items (e2 :: es2) f rest (by simp) (by
            rw [show isize (e2 :: es2) = 1 + jsize e2 + isize es2 from rfl] at hf ⊢
            omega)]
        rfl
termination_by structural es => es

/-- Parsing rendered object fields (plus the closing brace) recovers them. -/
theorem rt_pairs : ∀ (fs : List (String × JVal)) (fuel : Nat) (rest : List Char),
    fs ≠ [] → psize fs ≤ fuel →
    jparsePairs fuel (dumpsFields fs ++ '\x7d' :: rest) = some (fs, rest)
  | [], _, _, hne, _ => absurd rfl hne
  | (k, v) :: fs, fuel, rest, _, hf => by
    cases fuel with
    | zero =>
      rw [show psize ((k, v) :: fs) = 1 + jsize v + psize fs from rfl] at hf
      omega
    | succ f =>
      rw [show psize ((k, v) :: fs) = 1 + jsize v + psize fs from rfl] at hf
      cases fs with
      | nil =>
        have harg : dumpsFields [(k, v)] ++ '\x7d' :: rest
            = '"' :: (escStr k.data ++ ('"' :: (':' :: ' ' :: (dumpsVal v
                ++ '\x7d' :: rest)))) := by
          rw [show dumpsFields [(k, v)] = dumpsStr k ++ ':' :: ' ' :: dumpsVal v from rfl,
            dumpsStr]
          simp
        rw [harg]
        have hstep : jparsePairs (f + 1) ('"' :: (escStr k.data ++ ('"' :: (':' :: ' '
                :: (dumpsVal v ++ '\x7d' :: rest)))))
            = (match jparseStrBody (escStr k.data ++ ('"' :: (':' :: ' '
                  :: (dumpsVal v ++ '\x7d' :: rest)))) with
               | none => none
               | some (k2, r1) =>
                 match skipWs r1 with
                 | ':' :: r2 =>
                   match jparse f (skipWs r2) with
                   | none => none
                   | some (v2, r3) =>
                     match skipWs r3 with
                     | ',' :: r4 => (jparsePairs f (skipWs r4)).map
                         (fun p => ((String.mk k2, v2) :: p.1, p.2))
                     | '\x7d' :: r4 => some ([(String.mk k2, v2)], r4)
                     | _ => none
                 | _ => none) := rfl
        rw [hstep, jparseStrBody_escStr]
        show (match jparse f (skipWs (' ' :: (dumpsVal v ++ '\x7d' :: rest))) with
              | none => none
              | some (v2, r3) =>
                match skipWs r3 with
                | ',' :: r4 => (jparsePairs f (skipWs r4)).map
                    (fun p => ((String.mk k.data, v2) :: p.1, p.2))
                | '\x7d' :: r4 => some ([(String.mk k.data, v2)], r4)
                | _ => none) = some ([(k, v)], rest)
        rw [show skipWs (' ' :: (dumpsVal v ++ '\x7d' :: rest))
            = skipWs (dumpsVal v ++ '\x7d' :: rest) from rfl,
          skipWs_dumps, rt_val v f ('\x7d' :: rest) (by omega) rfl]
        show some ([(String.mk k.data, v)], rest) = some ([(k, v)], rest)
        rw [stringMk_data]
      | cons f2 fs2 =>
        have harg : dumpsFields ((k, v) :: f2 :: fs2) ++ '\x7d' :: rest
            = '"' :: (escStr k.data ++ ('"' :: (':' :: ' ' :: (dumpsVal v
                ++ (',' :: ' ' :: (dumpsFields (f2 :: fs2) ++ '\x7d' :: rest)))))) := by
          rw [show dumpsFields ((k, v) :: f2 :: fs2)
              = dumpsStr k ++ ':' :: ' ' :: dumpsVal v
                ++ ',' :: ' ' :: dumpsFields (f2 :: fs2) from rfl, dumpsStr]
          simp
        rw [harg]
        have hstep : jparsePairs (f + 1) ('"' :: (escStr k.data ++ ('"' :: (':' :: ' '
                :: (dumpsVal v ++ (',' :: ' ' :: (dumpsFields (f2 :: fs2)
                  ++ '\x7d' :: rest)))))))
            = (match jparseStrBody (escStr k.data ++ ('"' :: (':' :: ' '
                  :: (dumpsVal v ++ (',' :: ' ' :: (dumpsFields (f2 :: fs2)
                    ++ '\x7d' :: rest)))))) with
               | none => none
               | some (k2, r1) =>
                 match skipWs r1 with
                 | ':' :: r2 =>
                   match jparse f (skipWs r2) with
                   | none => none
                   | some (v2, r3) =>
                     match skipWs r3 with
                     | ',' :: r4 => (jparsePairs f (skipWs r4)).map
                         (fun p => ((String.mk k2, v2) :: p.1, p.2))
                     | '\x7d' :: r4 => some ([(String.mk k2, v2)], r4)
                     | _ => none
                 | _ => none) := rfl
        rw [hstep, jparseStrBody_escStr]
        show (match jparse f (skipWs (' ' :: (dumpsVal v ++ (',' :: ' '
                :: (dumpsFields (f2 :: fs2) ++ '\x7d' :: rest))))) with
              | none => none
              | some (v2, r3) =>
                match skipWs r3 with
                | ',' :: r4 => (jparsePairs f (skipWs r4)).map
                    (fun p => ((String.mk k.data, v2) :: p.1, p.2))
                | '\x7d' :: r4 => some ([(String.mk k.data, v2)], r4)
                | _ => none) = some ((k, v) :: f2 :: fs2, rest)
        rw [show skipWs (' ' :: (dumpsVal v ++ (',' :: ' ' :: (dumpsFields (f2 :: fs2)
                ++ '\x7d' :: rest))))
            = skipWs (dumpsVal v ++ (',' :: ' ' :: (dumpsFields (f2 :: fs2)
                ++ '\x7d' :: rest))) from rfl,
          skipWs_dumps, rt_val v f (',' :: ' ' :: (dumpsFields (f2 :: fs2)
            ++ '\x7d' :: rest)) (by omega) rfl]
        show (jparsePairs f (skipWs (' ' :: (dumpsFields (f2 :: fs2)
                ++ '\x7d' :: rest)))).map
            (fun p => ((String.mk k.data, v) :: p.1, p.2)) = some ((k, v) :: f2 :: fs2, rest)
        rw [show skipWs (' ' :: (dumpsFields (f2 :: fs2) ++ '\x7d' :: rest))
            = skipWs (dumpsFields (f2 :: fs2) ++ '\x7d' :: rest) from rfl]
        obtain ⟨k3, v3⟩ := f2
        rw [skipWs_dumpsFields_cons,
          rt_pairs ((k3, v3) :: fs2) f rest (by simp) (by
            rw [show psize ((k3, v3) :: fs2) = 1 + jsize v3 + psize fs2 from rfl] at hf ⊢
            omega), stringMk_data]
        rfl
termination_by structural fs => fs
end

mutual
/-- The fuel measure is covered by the rendered length. -/
theorem jsize_le_len : ∀ (v : JVal), jsize v ≤ (dumpsVal v).length
  | .null => by decide
  | .bool b => by cases b <;> decide
  | .num i => by
    rw [show jsize (.num i) = 1 from rfl, show dumpsVal (.num i) = intChars i from rfl]
    have h := List.length_pos.mpr (intChars_ne_nil i)
    omega
  | .fnum f => by
    rw [show jsize (.fnum f) = 1 from rfl, show dumpsVal (.fnum f) = f.text from rfl]
    have h := List.length_pos.mpr (floatTok_text_ne_nil f)
    omega
  | .str s => by
    rw [show jsize (.str s) = 1 from rfl, show dumpsVal (.str s) = dumpsStr s from rfl,
      dumpsStr]
    simp only [List.length_cons]
    omega
  | .arr es => by
    rw [show jsize (.arr es) = 1 + isize es from rfl,
      show dumpsVal (.arr es) = '[' :: (dumpsElems es ++ [']']) from rfl]
    have h := isize_le_len es
    simp only [List.length_cons, List.length_append, List.length_singleton]
    omega
  | .obj fs => by
    rw [show jsize (.obj fs) = 1 + psize fs from rfl,
      show dumpsVal (.obj fs) = '\x7b' :: (dumpsFields fs ++ ['\x7d']) from rfl]
    have h := psize_le_len fs
    simp only [List.length_cons, List.length_append, List.length_singleton]
    omega
termination_by structural v => v
/-- The item fuel measure is covered by the rendered items length. -/
theorem isize_le_len : ∀ (es : List JVal), isize es ≤ 1 + (dumpsElems es).length
  | [] => by decide
  | [e] => by
    rw [show isize [e] = 1 + jsize e + isize ([] : List JVal) from rfl,
      show isize ([] : List JVal) = 0 from rfl,
      show dumpsElems [e] = dumpsVal e from rfl]
    have h := jsize_le_len e
    omega
  | e :: e2 :: es => by
    rw [show isize (e :: e2 :: es) = 1 + jsize e + isize (e2 :: es) from rfl,
      show dumpsElems (e :: e2 :: es)
        = dumpsVal e ++ ',' :: ' ' :: dumpsElems (e2 :: es) from rfl]
    have h1 := jsize_le_len e
    have h2 := isize_le_len (e2 :: es)
    simp only [List.length_append, List.length_cons]
    omega
termination_by structural l => l
/-- The field fuel measure is covered by the rendered fields length. -/
theorem psize_le_len : ∀ (fs : List (String × JVal)), psize fs ≤ 1 + (dumpsFields fs).length
  | [] => by decide
  | [(k, v)] => by
    rw [show psize [(k, v)] = 1 + jsize v + psize ([] : List (String × JVal)) from rfl,
      show psize ([] : List (String × JVal)) = 0 from rfl,
      show dumpsFields [(k, v)] = dumpsStr k ++ ':' :: ' ' :: dumpsVal v from rfl]
    have h := jsize_le_len v
    simp only [List.length_append, List.length_cons]
    omega
  | (k, v) :: f2 :: fs => by
    rw [show psize ((k, v) :: f2 :: fs) = 1 + jsize v + psize (f2 :: fs) from rfl,
      show dumpsFields ((k, v) :: f2 :: fs)
        = dumpsStr k ++ ':' :: ' ' :: dumpsVal v ++ ',' :: ' ' :: dumpsFields (f2 :: fs)
        from rfl]
    have h1 := jsize_le_len v
    have h2 := psize_le_len (f2 :: fs)
    simp only [List.length_append, List.length_cons]
    omega
termination_by structural l => l
end

/-- The codec round-trip at the document level: `json.loads` inverts
`json.dumps` for every JSON value. -/
theorem json_loads_dumps (v : JVal) : json_loads (dumpsVal v) = some v := by
  rw [json_loads]
  have hskip : skipWs (dumpsVal v) = dumpsVal v := by
    have h := skipWs_dumps v []
    simpa using h
  rw [hskip]
  have hrt := rt_val v (2 * (dumpsVal v).length + 2) [] (by
    have h1 := jsize_le_len v
    omega) rfl
  rw [show dumpsVal v ++ ([] : List Char) = dumpsVal v from by simp] at hrt
  rw [hrt]
  rfl

/-- Two complete JSON documents joined by the newline that framed the first
do not parse as one document: `json.loads` rejects the leftover text. -/
theorem json_loads_two_docs (m1 m2 : JVal) :
    json_loads (dumpsVal m1 ++ '\n' :: dumpsVal m2) = none := by
  rw [json_loads]
  rw [skipWs_dumps m1 ('\n' :: dumpsVal m2)]
  have hrt := rt_val m1 (2 * (dumpsVal m1 ++ '\n' :: dumpsVal m2).length + 2)
    ('\n' :: dumpsVal m2) (by
      have h1 := jsize_le_len m1
      simp only [List.length_append, List.length_cons]
      omega) rfl
  rw [hrt]
  have hsk : skipWs ('\n' :: dumpsVal m2) = dumpsVal m2 := by
    rw [show skipWs ('\n' :: dumpsVal m2) = skipWs (dumpsVal m2) from rfl]
    have h := skipWs_dumps m2 []
    simpa using h
  dsimp only
  rw [hsk, if_neg (dumpsVal_ne_nil m2)]

/-! ### Framing: the newline-delimited receive loops of server and client -/

/-- `data.endswith(b"\n")`: does the buffer end with the frame delimiter? -/
def endsNl (l : List Char) : Bool := l.getLast? == some '\n'

/-- The addon server's inner receive step (`socket_server_function`,
lines 816-822): keep reading chunks until the buffer ends with `\n`; an
empty chunk (peer closed) breaks out with whatever was buffered.  `none`
models the loop blocking forever because the chunk stream is exhausted
before a delimiter arrives. -/
def serverRecv : List Char → List (List Char) → Option (List Char × List (List Char))
  | data, chunks =>
    if endsNl data then some (data, chunks)
    else
      match chunks with
      | [] => none
      | c :: rest => if c = [] then some (data, rest) else serverRecv (data ++ c) rest
termination_by structural data chunks => chunks

/-- The client connector's receive loop (`BlenderMCPService.send_command`,
lines 70-77): append each chunk, stop at an empty chunk or as soon as a
chunk contains `\n`.  `none` models blocking on an exhausted stream. -/
def clientRecv : List Char → List (List Char) → Option (List Char)
  | _, [] => none
  | acc, c :: rest =>
    if c = [] then some acc
    else if c.contains '\n' then some (acc ++ c)
    else clientRecv (acc ++ c) rest

/-- A buffered proper prefix of `s ++ '\n'` stays inside `s`. -/
theorem prefix_subset_of_partial (s acc x : List Char) (hx : x ≠ [])
    (hacc : acc ++ x = s ++ ['\n']) : ∀ a ∈ acc, a ∈ s := by
  intro a ha
  have hlen : acc.length ≤ s.length := by
    have h1 := congrArg List.length hacc
    simp only [List.length_append, List.length_singleton] at h1
    have h2 : 0 < x.length := List.length_pos.mpr hx
    omega
  have htake : acc = s.take acc.length := by
    have h1 : (acc ++ x).take acc.length = acc := List.take_left acc x
    rw [hacc, List.take_append_of_le_length hlen] at h1
    exact h1.symm
  rw [htake] at ha
  exact List.take_subset _ s ha

/-- The server receive loop assembles exactly one framed message, however
the bytes were split into (nonempty) reads — including one byte per read. -/
theorem serverRecv_assembles (s : List Char) (hs : '\n' ∉ s) :
    ∀ (chunks : List (List Char)) (acc : List Char),
      (∀ c ∈ chunks, c ≠ []) → acc ++ chunks.flatten = s ++ ['\n'] →
      serverRecv acc chunks = some (s ++ ['\n'], []) := by
  intro chunks
  induction chunks with
  | nil =>
    intro acc _ hacc
    simp only [List.flatten_nil, List.append_nil] at hacc
    subst hacc
    rw [serverRecv, if_pos (by simp [endsNl, List.getLast?_concat])]
  | cons c rest ih =>
    intro acc hne hacc
    have hcne : c ≠ [] := hne c (List.mem_cons_self c rest)
    have hflat : (c :: rest).flatten = c ++ rest.flatten := by simp
    have hend : endsNl acc = false := by
      rw [endsNl]
      cases hlast : acc.getLast? with
      | none => rfl
      | some a =>
        have hmem : a ∈ acc := getLast?_mem_self acc a hlast
        have hins : a ∈ s := by
          refine prefix_subset_of_partial s acc (c :: rest).flatten ?_ hacc a hmem
          rw [hflat]
          intro hnil
          exact hcne (List.append_eq_nil.mp hnil).1
        rw [beq_eq_false_iff_ne]
        intro hna
        have ha : a = '\n' := Option.some.inj hna
        rw [ha] at hins
        exact hs hins
    rw [serverRecv, if_neg (by simp [hend])]
    rw [if_neg hcne]
    refine ih (acc ++ c) (fun d hd => hne d (List.mem_cons_of_mem c hd)) ?_
    rw [List.append_assoc, ← hflat, hacc]

/-- The client receive loop likewise assembles exactly one framed message
from any split into nonempty reads. -/
theorem clientRecv_assembles (s : List Char) (hs : '\n' ∉ s) :
    ∀ (chunks : List (List Char)) (acc : List Char), chunks ≠ [] →
      (∀ c ∈ chunks, c ≠ []) → acc ++ chunks.flatten = s ++ ['\n'] →
      clientRecv acc chunks = some (s ++ ['\n']) := by
  intro chunks
  induction chunks with
  | nil => intro acc h; exact absurd rfl h
  | cons c rest ih =>
    intro acc _ hne hacc
    have hcne : c ≠ [] := hne c (List.mem_cons_self c rest)
    rw [clientRecv, if_neg hcne]
    cases rest with
    | nil =>
      simp only [List.flatten_cons, List.flatten_nil, List.append_nil] at hacc
      have hlast : c.getLast? = some '\n' := by
        have h1 : (acc ++ c).getLast? = some '\n' := by
          rw [hacc]
          exact List.getLast?_concat s
        rwa [List.getLast?_append_of_ne_nil acc hcne] at h1
      rw [if_pos (List.elem_iff.mpr (getLast?_mem_self c '\n' hlast)), hacc]
    | cons c2 rest2 =>
      have hnl : '\n' ∉ c := by
        intro hmem
        have : '\n' ∈ s := by
          refine prefix_subset_of_partial s (acc ++ c) (c2 :: rest2).flatten ?_ ?_ '\n'
            (List.mem_append.mpr (Or.inr hmem))
          · simp only [ne_eq, List.flatten_eq_nil_iff, not_forall]
            exact ⟨c2, List.mem_cons_self c2 rest2, hne c2 (by simp)⟩
          · rw [List.append_assoc]
            simpa using hacc
        exact hs this
      rw [if_neg (by simpa using fun h => hnl (List.elem_iff.mp h))]
      refine ih (acc ++ c) (by simp) (fun d hd => hne d (List.mem_cons_of_mem c hd)) ?_
      rw [List.append_assoc]
      simpa using hacc

/-! ### Rendered JSON contains no raw newline, so one message is one line -/

theorem digitChar_ne_nl (d : Nat) (h : d < 16) : Nat.digitChar d ≠ '\n' := by
  interval_cases d <;> decide

theorem toHex4_no_nl (n : Nat) : '\n' ∉ toHex4 n := by
  intro hmem
  rw [toHex4] at hmem
  simp only [List.mem_cons, List.not_mem_nil, or_false] at hmem
  rcases hmem with h | h | h | h
  · exact digitChar_ne_nl _ (Nat.mod_lt _ (by omega)) h.symm
  · exact digitChar_ne_nl _ (Nat.mod_lt _ (by omega)) h.symm
  · exact digitChar_ne_nl _ (Nat.mod_lt _ (by omega)) h.symm
  · exact digitChar_ne_nl _ (Nat.mod_lt _ (by omega)) h.symm

theorem escapeChar_no_nl (c : Char) : '\n' ∉ escapeChar c := by
  rw [escapeChar]
  split_ifs with h1 h2 h3 h4 h5 h6 h7 h8 h9 h10
  · decide
  · decide
  · decide
  · decide
  · decide
  · decide
  · decide
  · intro hmem
    rcases List.mem_cons.mp hmem with h | h
    · exact absurd h (by decide)
    · rcases List.mem_cons.mp h with h | h
      · exact absurd h (by decide)
      · exact toHex4_no_nl _ h
  · intro hmem
    simp only [List.mem_singleton] at hmem
    rw [← hmem] at h8
    exact h8 (by decide)
  · intro hmem
    rcases List.mem_cons.mp hmem with h | h
    · exact absurd h (by decide)
    · rcases List.mem_cons.mp h with h | h
      · exact absurd h (by decide)
      · exact toHex4_no_nl _ h
  · intro hmem
    rcases List.mem_cons.mp hmem with h | h
    · exact absurd h (by decide)
    · rcases List.mem_cons.mp h with h | h
      · exact absurd h (by decide)
      · rcases List.mem_append.mp h with h | h
        · exact toHex4_no_nl _ h
        · rcases List.mem_cons.mp h with h | h
          · exact absurd h (by decide)
          · rcases List.mem_cons.mp h with h | h
            · exact absurd h (by decide)
            · exact toHex4_no_nl _ h

theorem escStr_no_nl (s : List Char) : '\n' ∉ escStr s := by
  induction s with
  | nil => simp [escStr]
  | cons c cs ih =>
    rw [escStr]
    intro hmem
    rcases List.mem_append.mp hmem with h | h
    · exact escapeChar_no_nl c h
    · exact ih h

theorem dumpsStr_no_nl (s : String) : '\n' ∉ dumpsStr s := by
  rw [dumpsStr]
  intro hmem
  rcases List.mem_cons.mp hmem with h | h
  · exact absurd h (by decide)
  · rcases List.mem_append.mp h with h2 | h2
    · exact escStr_no_nl s.data h2
    · simp at h2

theorem natChars_no_nl (n : Nat) : '\n' ∉ natChars n := by
  intro hmem
  have := natChars_digits n '\n' hmem
  exact absurd this (by decide)

mutual
/-- Rendered JSON never contains a raw newline: `\n` is always escaped. -/
theorem dumpsVal_no_nl : ∀ (v : JVal), '\n' ∉ dumpsVal v
  | .null => by decide
  | .bool b => by cases b <;> decide
  | .num i => by
    rw [show dumpsVal (.num i) = intChars i from rfl, intChars]
    split_ifs
    · intro hmem
      rcases List.mem_cons.mp hmem with h | h
      · exact absurd h (by decide)
      · exact natChars_no_nl _ h
    · exact natChars_no_nl _
  | .fnum f => by
    intro hmem
    rcases floatTokWF_chars f.text f.ok '\n' hmem with h | h | h | h | h | h
    · exact absurd h (by decide)
    · exact absurd h (by decide)
    · exact absurd h (by decide)
    · exact absurd h (by decide)
    · exact absurd h (by decide)
    · exact absurd h (by decide)
  | .str s => dumpsStr_no_nl s
  | .arr es => by
    rw [show dumpsVal (.arr es) = '[' :: (dumpsElems es ++ [']']) from rfl]
    intro hmem
    rcases List.mem_cons.mp hmem with h | h
    · exact absurd h (by decide)
    · rcases List.mem_append.mp h with h2 | h2
      · exact dumpsElems_no_nl es h2
      · simp at h2
  | .obj fs => by
    rw [show dumpsVal (.obj fs) = '\x7b' :: (dumpsFields fs ++ ['\x7d']) from rfl]
    intro hmem
    rcases List.mem_cons.mp hmem with h | h
    · exact absurd h (by decide)
    · rcases List.mem_append.mp h with h2 | h2
      · exact dumpsFields_no_nl fs h2
      · simp at h2
termination_by structural v => v
/-- Rendered array items never contain a raw newline. -/
theorem dumpsElems_no_nl : ∀ (es : List JVal), '\n' ∉ dumpsElems es
  | [] => by simp [dumpsElems]
  | [e] => by
    rw [show dumpsElems [e] = dumpsVal e from rfl]
    exact dumpsVal_no_nl e
  | e :: e2 :: es => by
    rw [show dumpsElems (e :: e2 :: es)
        = dumpsVal e ++ ',' :: ' ' :: dumpsElems (e2 :: es) from rfl]
    intro hmem
    rcases List.mem_append.mp hmem with h | h
    · exact dumpsVal_no_nl e h
    · rcases List.mem_cons.mp h with h2 | h2
      · exact absurd h2 (by decide)
      · rcases List.mem_cons.mp h2 with h3 | h3
        · exact absurd h3 (by decide)
        · exact dumpsElems_no_nl (e2 :: es) h3
termination_by structural l => l
/-- Rendered object fields never contain a raw newline. -/
theorem dumpsFields_no_nl : ∀ (fs : List (String × JVal)), '\n' ∉ dumpsFields fs
  | [] => by simp [dumpsFields]
  | [(k, v)] => by
    rw [show dumpsFields [(k, v)] = dumpsStr k ++ ':' :: ' ' :: dumpsVal v from rfl]
    intro hmem
    rcases List.mem_append.mp hmem with h | h
    · exact dumpsStr_no_nl k h
    · rcases List.mem_cons.mp h with h2 | h2
      · exact absurd h2 (by decide)
      · rcases List.mem_cons.mp h2 with h3 | h3
        · exact absurd h3 (by decide)
        · exact dumpsVal_no_nl v h3
  | (k, v) :: f2 :: fs => by
    rw [show dumpsFields ((k, v) :: f2 :: fs)
        = dumpsStr k ++ ':' :: ' ' :: dumpsVal v ++ ',' :: ' ' :: dumpsFields (f2 :: fs)
        from rfl]
    intro hmem
    rcases List.mem_append.mp hmem with h | h
    · rcases List.mem_append.mp h with h1 | h1
      · exact dumpsStr_no_nl k h1
      · rcases List.mem_cons.mp h1 with h2 | h2
        · exact absurd h2 (by decide)
        · rcases List.mem_cons.mp h2 with h3 | h3
          · exact absurd h3 (by decide)
          · exact dumpsVal_no_nl v h3
    · rcases List.mem_cons.mp h with h2 | h2
      · exact absurd h2 (by decide)
      · rcases List.mem_cons.mp h2 with h3 | h3
        · exact absurd h3 (by decide)
        · exact dumpsFields_no_nl (f2 :: fs) h3
termination_by structural l => l
end

/-- The framing encoder both sides use: `json.dumps(msg) + "\n"` as bytes
(`send_command` line 66, and the server response path line 847). -/
def encodeMsg (m : JVal) : List Char := dumpsVal m ++ ['\n']

/-- C1 — Framing round-trip.  For every JSON message `m`, encoding it as
its JSON text followed by a single newline and splitting the encoded bytes
into any sequence of nonempty reads: the server's receive loop accumulates
exactly the framed message (leaving nothing behind), the client's receive
loop does likewise, and stripping the frame and parsing the accumulated
text as JSON yields `m` again. -/
theorem framing_round_trip (m : JVal) (chunks : List (List Char))
    (hne : ∀ c ∈ chunks, c ≠ []) (hsplit : chunks.flatten = encodeMsg m) :
    serverRecv [] chunks = some (encodeMsg m, [])
    ∧ clientRecv [] chunks = some (encodeMsg m)
    ∧ json_loads (pyStrip (encodeMsg m)) = some m := by
  have hnl := dumpsVal_no_nl m
  have hflat : ([] : List Char) ++ chunks.flatten = dumpsVal m ++ ['\n'] := by
    simpa [encodeMsg] using hsplit
  refine ⟨?_, ?_, ?_⟩
  · exact serverRecv_assembles (dumpsVal m) hnl chunks [] hne hflat
  · refine clientRecv_assembles (dumpsVal m) hnl chunks [] ?_ hne hflat
    intro h
    subst h
    simp only [List.flatten_nil] at hsplit
    exact absurd hsplit.symm (by simp [encodeMsg])
  · have hstrip : pyStrip (dumpsVal m ++ ['\n']) = dumpsVal m :=
      pyStrip_dumps_newline m ['\n'] (by
        intro c hc
        simp only [List.mem_singleton] at hc
        subst hc
        decide)
    rw [show encodeMsg m = dumpsVal m ++ ['\n'] from rfl, hstrip, json_loads_dumps]

/-- A concrete command message used by the witnesses. -/
def pingMsg : JVal := .obj [("type", .str "get_scene_info")]

/-- A `create_object` command carrying float `location`/`color` params —
`1.5`, `-0.25` and an exponent form — plus a name with a non-ASCII `é`
(escaped `é`) and an astral `𝄞` (escaped as a surrogate pair). -/
def floatMsg : JVal :=
  .obj [("type", .str "create_object"),
    ("params", .obj [
      ("object_type", .str "cube"),
      ("name", .str (String.mk ['b', 'o', Char.ofNat 233, Char.ofNat 119070])),
      ("location", .arr [.fnum ⟨['1', '.', '5'], by decide⟩,
        .fnum ⟨['-', '0', '.', '2', '5'], by decide⟩, .num 0]),
      ("color", .arr [.fnum ⟨['1', 'e', '-', '0', '2'], by decide⟩,
        .fnum ⟨['0', '.', '0'], by decide⟩,
        .fnum ⟨['1', '.', '0'], by decide⟩])])]

set_option maxRecDepth 100000 in
/-- Witness for C1: the two concrete messages above — one plain, one with
float and non-ASCII payloads — each split into one-byte reads. -/
theorem framing_round_trip_witness :
    (serverRecv [] ((encodeMsg pingMsg).map (fun c => [c])) = some (encodeMsg pingMsg, [])
      ∧ clientRecv [] ((encodeMsg pingMsg).map (fun c => [c])) = some (encodeMsg pingMsg)
      ∧ json_loads (pyStrip (encodeMsg pingMsg)) = some pingMsg)
    ∧ (serverRecv [] ((encodeMsg floatMsg).map (fun c => [c]))
        = some (encodeMsg floatMsg, [])
      ∧ clientRecv [] ((encodeMsg floatMsg).map (fun c => [c])) = some (encodeMsg floatMsg)
      ∧ json_loads (pyStrip (encodeMsg floatMsg)) = some floatMsg) :=
  ⟨framing_round_trip pingMsg ((encodeMsg pingMsg).map (fun c => [c]))
      (by decide) (by decide),
    framing_round_trip floatMsg ((encodeMsg floatMsg).map (fun c => [c]))
      (by decide) (by decide)⟩

/-! ### Server state: command history ring and last-error slot (addon.py) -/

/-- `MAX_HISTORY_ITEMS` (addon.py line 40). -/
def MAX_HISTORY_ITEMS : Nat := 10

/-- One `command_history` entry (addon.py lines 78-83). -/
structure HistoryItem where
  timestamp : String
  command : String
  params : JVal
  description : String
deriving DecidableEq

/-- `add_to_command_history` (addon.py lines 72-88): insert at index 0 for
reverse-chronological order, then truncate to `MAX_HISTORY_ITEMS`. -/
def add_to_command_history (history : List HistoryItem) (item : HistoryItem) :
    List HistoryItem :=
  let h2 := item :: history
  if MAX_HISTORY_ITEMS < h2.length then h2.take MAX_HISTORY_ITEMS else h2

/-- The `last_error` slot (addon.py lines 43-48).  `command` and `error`
hold whatever Python objects `save_error` receives (typically strings; the
unknown-command path passes the raw decoded `type` value). -/
structure LastErrorSlot where
  timestamp : String
  command : JVal
  error : JVal
  details : String
deriving DecidableEq

/-- `save_error` (addon.py lines 90-100): overwrite the single slot. -/
def save_error (now : String) (command : JVal) (error : JVal) (details : String) :
    LastErrorSlot :=
  { timestamp := now, command := command, error := error, details := details }

/-- The addon's global mutable server diagnostics, gathered in one record. -/
structure ServState where
  history : List HistoryItem
  lastError : LastErrorSlot
deriving DecidableEq

/-- Apply `add_to_command_history` to the state. -/
def recordHistory (now : String) (cmd : String) (params : JVal) (desc : String)
    (st : ServState) : ServState :=
  { st with history := add_to_command_history st.history ⟨now, cmd, params, desc⟩ }

/-- Apply `save_error` to the state. -/
def recordError (now : String) (cmd : JVal) (err : JVal) (details : String)
    (st : ServState) : ServState :=
  { st with lastError := save_error now cmd err details }

/-- Python `dict.get` on an object decoded by `json.loads`: with duplicate
keys the last occurrence wins, as in a Python dict built left to right. -/
def dictGet : List (String × JVal) → String → Option JVal
  | [], _ => none
  | (k, v) :: rest, key =>
    match dictGet rest key with
    | some r => some r
    | none => if k = key then some v else none

/-- `response.get(key)` on a handler response (all handlers return dicts). -/
def jget (v : JVal) (key : String) : Option JVal :=
  match v with
  | .obj fs => dictGet fs key
  | _ => none

/-- Python `str()` as the addon's f-strings apply it to decoded JSON
values (`command.get("type")` results).  Containers are approximated by
their JSON text; no claim depends on that case. -/
def pyFStr : JVal → String
  | .str s => s
  | .null => "None"
  | .bool true => "True"
  | .bool false => "False"
  | .num i => String.mk (intChars i)
  | v => String.mk (dumpsVal v)

/-- `str()` of an optional value (`None` when the key was absent). -/
def pyFStrOpt : Option JVal → String
  | none => "None"
  | some v => pyFStr v

/-- An error Response dict: `{"status": "error", "message": msg}`. -/
def mkError (msg : String) : JVal :=
  .obj [("status", .str "error"), ("message", .str msg)]

/-- The registry of command handlers, abstractly: the addon's
`command_handlers` dict (lines 775-789) maps a name to a handler taking
`params` to a Response dict.  The real handlers drive Blender through
`bpy`, which has no shallow embedding, so the serve-loop theorems
quantify over the table. -/
abbrev HandlerMap := String → Option (JVal → JVal)

/-- The unknown-command branch (addon lines 840-844). -/
def unknown_command_response (now : String) (command_type : Option JVal)
    (st : ServState) : JVal × ServState :=
  let error_msg := "Unknown command: " ++ pyFStrOpt command_type
  let st1 := recordHistory now "unknown_command"
    (.obj [("command", command_type.getD .null)]) error_msg st
  let st2 := recordError now (.str "unknown_command") (.str error_msg)
    ("Command type \x27" ++ pyFStrOpt command_type ++ "\x27 not found in handlers") st1
  (mkError error_msg, st2)

/-- The post-send bookkeeping (addon lines 850-856): log the response
status to the history and, when the Response has `status == "error"` and
carries a `message`, overwrite the last-error slot with that error. -/
def after_send (now : String) (command_type : Option JVal) (response : JVal)
    (st : ServState) : ServState :=
  let status := (jget response "status").getD (.str "unknown")
  let st1 := recordHistory now "response" (.obj [("status", status)])
    ("Response sent: " ++ pyFStr status) st
  match jget response "message" with
  | some msgv =>
      if status = .str "error" then
        recordError now (command_type.getD .null) msgv
          ("Command failed: " ++ pyFStrOpt command_type) st1
      else st1
  | none => st1

/-- Dispatch plus post-send bookkeeping for one decoded command object
(`socket_server_function` lines 831-856). -/
def processCommand (handlers : HandlerMap) (now : String) (st : ServState)
    (kvs : List (String × JVal)) : JVal × ServState :=
  let command_type := dictGet kvs "type"
  let params := (dictGet kvs "params").getD (.obj [])
  let (response, st1) :=
    match command_type with
    | some (.str s) =>
      match handlers s with
      | some h => (h params, st)
      | none => unknown_command_response now command_type st
    | _ => unknown_command_response now command_type st
  (response, after_send now command_type response st1)

/-- The modelled `str(e)` of a JSON decode error; the addon formats
`f"Invalid JSON: {str(e)}"` and the exception text itself is opaque here. -/
def jsonErrDetail : String := "Expecting value"

/-- The modelled `str(e)` of the AttributeError raised when a decoded
command is not a dict (`command.get` missing).  No claim depends on it. -/
def attrErrDetail : String := "object has no attribute get"

/-- The state updates of the `except json.JSONDecodeError` branch
(addon lines 863-866): one history entry and one last-error overwrite,
with `command_str` (the stripped line) as the error details. -/
def json_error_state (now : String) (command_str : List Char) (st : ServState) :
    ServState :=
  recordError now (.str "json_error") (.str ("Invalid JSON: " ++ jsonErrDetail))
    (String.mk command_str)
    (recordHistory now "json_error" (.obj []) ("Invalid JSON: " ++ jsonErrDetail) st)

/-- One iteration of the addon's per-client loop
(`socket_server_function` lines 814-878): receive one framed message,
decode it, dispatch, send exactly one Response.
`none`: the receive blocked (chunk stream exhausted with no delimiter);
`some (none, st, rest)`: empty buffer, the peer closed, the loop breaks;
`some (some resp, st, rest)`: `resp` was sent and the loop continues. -/
def serveCycle (handlers : HandlerMap) (now : String) (st : ServState)
    (chunks : List (List Char)) :
    Option (Option JVal × ServState × List (List Char)) :=
  match serverRecv [] chunks with
  | none => none
  | some (data, rest) =>
    if data = [] then some (none, st, rest)
    else
      let command_str := pyStrip data
      match json_loads command_str with
      | none =>
        some (some (mkError "Invalid JSON format"), json_error_state now command_str st, rest)
      | some command =>
        match command with
        | .obj kvs =>
          let pr := processCommand handlers now st kvs
          some (some pr.1, pr.2, rest)
        | _ =>
          let error_msg := "Error: " ++ attrErrDetail
          let st1 := recordHistory now "command_error" (.obj []) error_msg st
          let st2 := recordError now (.str "unknown") (.str error_msg) "" st1
          some (some (mkError attrErrDetail), st2, rest)

/-- The per-client loop run over a chunk stream, one fuel unit per
protocol cycle: the list of Responses sent, and the final state. -/
def serveConn (fuel : Nat) (handlers : HandlerMap) (now : String) (st : ServState)
    (chunks : List (List Char)) : List JVal × ServState :=
  match fuel with
  | 0 => ([], st)
  | fuel + 1 =>
    match serveCycle handlers now st chunks with
    | none => ([], st)
    | some (none, st2, _) => ([], st2)
    | some (some resp, st2, rest) =>
      let pr := serveConn fuel handlers now st2 rest
      (resp :: pr.1, pr.2)

/-! ### Substring test (Python `in` on strings) -/

/-- Does `needle` start `hay`? -/
def startsWithChars : List Char → List Char → Bool
  | _, [] => true
  | [], _ :: _ => false
  | c :: cs, d :: ds => c == d && startsWithChars cs ds

/-- Does `needle` occur anywhere in `hay` (Python `needle in hay`)? -/
def containsChars : List Char → List Char → Bool
  | [], needle => startsWithChars [] needle
  | c :: t, needle => startsWithChars (c :: t) needle || containsChars t needle

/-- Python `needle in hay` for strings. -/
def strContains (hay needle : String) : Bool := containsChars hay.data needle.data

theorem startsWithChars_append_self (b : List Char) :
    ∀ (x : List Char), startsWithChars (b ++ x) b = true := by
  induction b with
  | nil =>
    intro x
    rw [List.nil_append]
    cases x <;> rfl
  | cons c bs ih =>
    intro x
    rw [List.cons_append, startsWithChars, ih x]
    simp

theorem containsChars_suffix (a b : List Char) : containsChars (a ++ b) b = true := by
  induction a with
  | nil =>
    cases b with
    | nil => rfl
    | cons c t =>
      rw [List.nil_append, containsChars]
      have h := startsWithChars_append_self (c :: t) []
      rw [List.append_nil] at h
      rw [h]
      simp
  | cons c a2 ih =>
    rw [List.cons_append, containsChars, ih]
    simp

theorem strContains_suffix (a b : String) : strContains (a ++ b) b = true := by
  rw [strContains, String.data_append]
  exact containsChars_suffix a.data b.data

/-- C4 — Unknown command type.  When a decoded command's `type` is a
string that is not a registered handler name, the server's dispatch
produces exactly the Response `{"status": "error", "message": "Unknown
command: <type>"}` — whose message contains the unknown type string — and
invokes no handler: the result is the same closed expression whatever the
handler table maps every other name to. -/
theorem unknown_type_dispatch (handlers : HandlerMap) (now : String)
    (st : ServState) (kvs : List (String × JVal)) (s : String)
    (htype : dictGet kvs "type" = some (.str s)) (hunreg : handlers s = none) :
    (processCommand handlers now st kvs).1 = mkError ("Unknown command: " ++ s)
    ∧ strContains ("Unknown command: " ++ s) s = true := by
  refine ⟨?_, strContains_suffix ("Unknown command: ") s⟩
  simp only [processCommand, htype, hunreg, unknown_command_response, pyFStrOpt, pyFStr]

/-- C6 — History ring.  Insertion always goes to the head, the stored
list never exceeds `MAX_HISTORY_ITEMS = 10` entries, and after inserting
any sequence of entries into an empty history the stored list is exactly
the 10 most recently inserted entries, newest first (the older ones
evicted from the tail). -/
theorem history_ring_bounded :
    MAX_HISTORY_ITEMS = 10
    ∧ (∀ (h : List HistoryItem) (item : HistoryItem),
        (add_to_command_history h item).length ≤ MAX_HISTORY_ITEMS)
    ∧ (∀ (h : List HistoryItem) (item : HistoryItem),
        (add_to_command_history h item).head? = some item)
    ∧ (∀ (items : List HistoryItem),
        items.foldl add_to_command_history []
          = items.reverse.take MAX_HISTORY_ITEMS) := by
  have hadd : ∀ (h : List HistoryItem) (item : HistoryItem),
      add_to_command_history h item = (item :: h).take MAX_HISTORY_ITEMS := by
    intro h item
    rw [add_to_command_history]
    by_cases hlen : MAX_HISTORY_ITEMS < (item :: h).length
    · rw [if_pos hlen]
    · rw [if_neg hlen, List.take_of_length_le (by omega)]
  have htat : ∀ (n : Nat) (A B : List HistoryItem),
      (A ++ B.take n).take n = (A ++ B).take n := by
    intro n A B
    rw [List.take_append_eq_append_take, List.take_append_eq_append_take, List.take_take]
    congr 1
    congr 1
    omega
  refine ⟨rfl, ?_, ?_, ?_⟩
  · intro h item
    rw [hadd]
    exact List.length_take_le _ _
  · intro h item
    rw [hadd]
    rfl
  · intro items
    suffices hgen : ∀ (h : List HistoryItem), h.length ≤ MAX_HISTORY_ITEMS →
        items.foldl add_to_command_history h
          = (items.reverse ++ h).take MAX_HISTORY_ITEMS by
      have hg := hgen [] (by simp [MAX_HISTORY_ITEMS])
      simpa using hg
    induction items with
    | nil =>
      intro h hle
      simp only [List.foldl_nil, List.reverse_nil, List.nil_append]
      rw [List.take_of_length_le hle]
    | cons it rest ih =>
      intro h hle
      rw [List.foldl_cons, hadd, ih ((it :: h).take MAX_HISTORY_ITEMS)
        (List.length_take_le _ _)]
      rw [show (it :: rest).reverse = rest.reverse ++ [it] from by simp,
        List.append_assoc, List.singleton_append]
      exact htat MAX_HISTORY_ITEMS rest.reverse (it :: h)

/-! ### C7 — the last-error slot -/

theorem after_send_lastError (now : String) (ct : Option JVal) (resp : JVal)
    (st : ServState) :
    (∀ mv, jget resp "status" = some (.str "error") → jget resp "message" = some mv →
        (after_send now ct resp st).lastError
          = save_error now (ct.getD .null) mv ("Command failed: " ++ pyFStrOpt ct))
    ∧ (jget resp "status" ≠ some (.str "error") →
        (after_send now ct resp st).lastError = st.lastError) := by
  rw [after_send]
  rcases hmsg : jget resp "message" with _ | mv0
  · refine ⟨?_, ?_⟩
    · intro mv _ hmv
      simp at hmv
    · intro _
      rfl
  · rcases hstat : jget resp "status" with _ | sv
    · refine ⟨?_, ?_⟩
      · intro mv hs _
        simp at hs
      · intro _
        simp only [Option.getD]
        rw [if_neg (by decide : ¬(JVal.str "unknown" = JVal.str "error"))]
        rfl
    · by_cases hsv : sv = .str "error"
      · subst hsv
        refine ⟨?_, ?_⟩
        · intro mv _ hmv
          have hmveq : mv0 = mv := Option.some.inj hmv
          subst hmveq
          simp only [Option.getD]
          rw [if_pos trivial]
          rfl
        · intro hne
          exact absurd rfl hne
      · refine ⟨?_, ?_⟩
        · intro mv hs _
          exact absurd (Option.some.inj hs) hsv
        · intro _
          simp only [Option.getD]
          rw [if_neg hsv]
          rfl

/-- C7 — Last-error slot.  After a protocol exchange for a decoded
command, the `last_error` slot is overwritten (never appended) with the
data of the Response exactly when that Response has `status == "error"`
(and a `message`); a Response whose status is not `"error"` leaves the
slot exactly as it was, so a later success never clears the last error. -/
theorem last_error_tracking (handlers : HandlerMap) (now : String)
    (st : ServState) (kvs : List (String × JVal)) :
    (∀ mv, jget (processCommand handlers now st kvs).1 "status" = some (.str "error") →
        jget (processCommand handlers now st kvs).1 "message" = some mv →
        (processCommand handlers now st kvs).2.lastError
          = save_error now ((dictGet kvs "type").getD .null) mv
              ("Command failed: " ++ pyFStrOpt (dictGet kvs "type")))
    ∧ (jget (processCommand handlers now st kvs).1 "status" ≠ some (.str "error") →
        (processCommand handlers now st kvs).2.lastError = st.lastError) := by
  have hu : ∀ (ct : Option JVal),
      (∀ mv, jget (unknown_command_response now ct st).1 "status" = some (.str "error") →
          jget (unknown_command_response now ct st).1 "message" = some mv →
          (after_send now ct (unknown_command_response now ct st).1
              (unknown_command_response now ct st).2).lastError
            = save_error now (ct.getD .null) mv ("Command failed: " ++ pyFStrOpt ct))
      ∧ (jget (unknown_command_response now ct st).1 "status" ≠ some (.str "error") →
          (after_send now ct (unknown_command_response now ct st).1
              (unknown_command_response now ct st).2).lastError = st.lastError) := by
    intro ct
    refine ⟨(after_send_lastError now ct _ _).1, ?_⟩
    intro hne
    exact absurd rfl hne
  rcases hct : dictGet kvs "type" with _ | ctv
  · simp only [processCommand, hct]
    exact hu none
  · cases ctv with
    | str s =>
      simp only [processCommand, hct]
      cases hh : handlers s with
      | some h =>
        simp only [hh]
        exact after_send_lastError now (some (.str s))
          (h ((dictGet kvs "params").getD (.obj []))) st
      | none =>
        simp only [hh]
        exact hu (some (.str s))
    | null =>
      simp only [processCommand, hct]
      exact hu (some .null)
    | bool b =>
      simp only [processCommand, hct]
      exact hu (some (.bool b))
    | num i =>
      simp only [processCommand, hct]
      exact hu (some (.num i))
    | fnum fv =>
      simp only [processCommand, hct]
      exact hu (some (.fnum fv))
    | arr es =>
      simp only [processCommand, hct]
      exact hu (some (.arr es))
    | obj fs =>
      simp only [processCommand, hct]
      exact hu (some (.obj fs))

/-! ### Serve-cycle facts for C2 and C5 -/

/-- `pyStrip` removes exactly the trailing whitespace `x` from a text that
neither starts nor ends with whitespace. -/
theorem pyStrip_sandwich (l x : List Char) (c1 c2 : Char)
    (hh : l.head? = some c1) (h1 : pyWs c1 = false)
    (hl : l.getLast? = some c2) (h2 : pyWs c2 = false)
    (hx : ∀ c ∈ x, pyWs c = true) : pyStrip (l ++ x) = l := by
  obtain ⟨c, t, hct⟩ : ∃ c t, l = c :: t := by
    cases l with
    | nil => simp at hh
    | cons c t => exact ⟨c, t, rfl⟩
  have hc1 : c = c1 := by
    rw [hct] at hh
    simpa using hh
  rw [pyStrip, hct, List.cons_append, List.dropWhile_cons,
    if_neg (by simp [hc1, h1]), ← List.cons_append, ← hct, List.reverse_append,
    List.dropWhile_append]
  have hxrev : x.reverse.dropWhile pyWs = [] := by
    rw [List.dropWhile_eq_nil_iff]
    intro c3 hc3
    exact hx c3 (List.mem_reverse.mp hc3)
  rw [hxrev]
  simp only [List.isEmpty_nil, if_true]
  have hlne : l ≠ [] := by rw [hct]; simp
  have hrevne : l.reverse ≠ [] := by simp [hlne]
  obtain ⟨c4, t4, hct4⟩ := List.exists_cons_of_ne_nil hrevne
  have hc4 : c4 = c2 := by
    have hh1 := List.head?_reverse l
    rw [hct4, hl] at hh1
    simpa using hh1
  rw [hct4, List.dropWhile_cons, if_neg (by simp [hc4, h2]), ← hct4,
    List.reverse_reverse]

/-- The receive loop passed a single read that already ends in the
delimiter returns that whole read. -/
theorem serverRecv_single (data : List Char) (rest : List (List Char))
    (hne : data ≠ []) (hend : data.getLast? = some '\n') :
    serverRecv [] (data :: rest) = some (data, rest) := by
  rw [serverRecv.eq_def]
  dsimp only
  rw [if_neg (by decide)]
  rw [if_neg hne, List.nil_append, serverRecv.eq_def]
  dsimp only
  rw [if_pos (by simp [endsNl, hend])]

/-- A serve cycle whose first read is one whole line of invalid JSON:
one `Invalid JSON format` error Response is sent, the json-error state
updates apply, and the connection continues with the remaining reads. -/
theorem serveCycle_invalid (bad : List Char) (handlers : HandlerMap) (now : String)
    (st : ServState) (rest : List (List Char)) (hbadnil : bad ≠ [])
    (hbadjson : json_loads (pyStrip (bad ++ ['\n'])) = none) :
    serveCycle handlers now st ((bad ++ ['\n']) :: rest)
      = some (some (mkError "Invalid JSON format"),
          json_error_state now (pyStrip (bad ++ ['\n'])) st, rest) := by
  rw [serveCycle, serverRecv_single (bad ++ ['\n']) rest (by simp) (List.getLast?_concat bad)]
  dsimp only
  rw [if_neg (by simp)]
  rw [hbadjson]

/-- A serve cycle whose first read is one whole well-formed command
object: the command is decoded and dispatched through `processCommand`. -/
theorem serveCycle_command (kvs : List (String × JVal)) (handlers : HandlerMap)
    (now : String) (st : ServState) (rest : List (List Char)) :
    serveCycle handlers now st (encodeMsg (.obj kvs) :: rest)
      = some (some (processCommand handlers now st kvs).1,
          (processCommand handlers now st kvs).2, rest) := by
  rw [show encodeMsg (.obj kvs) = dumpsVal (.obj kvs) ++ ['\n'] from rfl]
  rw [serveCycle, serverRecv_single (dumpsVal (.obj kvs) ++ ['\n']) rest (by simp)
    (List.getLast?_concat _)]
  dsimp only
  rw [if_neg (by simp [dumpsVal_ne_nil])]
  rw [pyStrip_dumps_newline (.obj kvs) ['\n'] (by
    intro c hc
    simp only [List.mem_singleton] at hc
    subst hc
    decide)]
  rw [json_loads_dumps]

/-- With no reads left the serve loop sends nothing and keeps its state. -/
theorem serveConn_nil (fuel : Nat) (handlers : HandlerMap) (now : String)
    (st : ServState) : serveConn fuel handlers now st [] = ([], st) := by
  cases fuel with
  | zero => rfl
  | succ f => rfl

/-- C2 (amended) — Pipelined read.  When a single read delivers two
complete newline-terminated messages, the server's receive step
accumulates the entire read and parses it as one JSON document; that parse
fails, so the cycle answers with a single `Invalid JSON format` error
Response (recording the json-error state), and neither message — in
particular not the first — is dispatched. -/
theorem pipelined_read_rejected (m1 m2 : JVal) (handlers : HandlerMap) (now : String)
    (st : ServState) :
    serveCycle handlers now st [encodeMsg m1 ++ encodeMsg m2]
      = some (some (mkError "Invalid JSON format"),
          json_error_state now (dumpsVal m1 ++ '\n' :: dumpsVal m2) st, []) := by
  have hsplit : encodeMsg m1 ++ encodeMsg m2
      = (dumpsVal m1 ++ '\n' :: dumpsVal m2) ++ ['\n'] := by
    rw [show encodeMsg m1 = dumpsVal m1 ++ ['\n'] from rfl,
      show encodeMsg m2 = dumpsVal m2 ++ ['\n'] from rfl]
    simp
  have hstrip : pyStrip ((dumpsVal m1 ++ '\n' :: dumpsVal m2) ++ ['\n'])
      = dumpsVal m1 ++ '\n' :: dumpsVal m2 := by
    obtain ⟨c, t, hct, _, hpws, _, _⟩ := dumpsVal_head m1
    obtain ⟨c2, hlast2, hpws2⟩ := dumpsVal_last m2
    refine pyStrip_sandwich _ ['\n'] c c2 ?_ hpws ?_ hpws2 ?_
    · rw [hct, List.cons_append]
      rfl
    · rw [List.getLast?_append_of_ne_nil (dumpsVal m1) (by simp),
        show ('\n' :: dumpsVal m2) = ['\n'] ++ dumpsVal m2 from rfl,
        List.getLast?_append_of_ne_nil ['\n'] (dumpsVal_ne_nil m2)]
      exact hlast2
    · intro c3 hc3
      simp only [List.mem_singleton] at hc3
      subst hc3
      decide
  rw [hsplit, serveCycle_invalid (dumpsVal m1 ++ '\n' :: dumpsVal m2) handlers now st []
    (by simp) (by rw [hstrip]; exact json_loads_two_docs m1 m2), hstrip]

/-- The addon's initial `last_error` value (addon lines 43-48). -/
def initialServState : ServState :=
  { history := [],
    lastError := { timestamp := "", command := .str "", error := .str "", details := "" } }

/-- A concrete handler table for the counterexample: both commands of the
pipelined read are registered and would answer with a success Response. -/
def okHandlers : HandlerMap := fun s =>
  if s = "get_scene_info" then
    some (fun _ => .obj [("status", .str "success"), ("result", .null)])
  else if s = "get_objects" then
    some (fun _ => .obj [("status", .str "success"), ("result", .arr [])])
  else none

/-- A second concrete command message. -/
def objectsMsg : JVal := .obj [("type", .str "get_objects")]

/-- Counterexample to C2 as stated.  One read carries the two complete
messages `{"type": "get_scene_info"}\n{"type": "get_objects"}\n`; were the
first complete message taken for the cycle, its registered handler would
answer with the success Response computed in the last conjunct.  Instead
the cycle's one Response is the `Invalid JSON format` error, which differs
from that success Response. -/
theorem pipelined_read_counterexample :
    (serveCycle okHandlers "10:00:00" initialServState
        [encodeMsg pingMsg ++ encodeMsg objectsMsg]).map (fun t => t.1)
      = some (some (mkError "Invalid JSON format"))
    ∧ (processCommand okHandlers "10:00:00" initialServState
        [("type", .str "get_scene_info")]).1
      = .obj [("status", .str "success"), ("result", .null)]
    ∧ mkError "Invalid JSON format"
      ≠ .obj [("status", .str "success"), ("result", .null)] := by
  refine ⟨?_, rfl, by decide⟩
  rfl

/-- C5 — Invalid JSON line, connection stays open.  A newline-terminated
line whose content is not valid JSON draws exactly one `Invalid JSON
format` error Response; the loop then continues on the remaining reads
from the json-error state, so a subsequent well-formed command on the same
connection is decoded and dispatched normally. -/
theorem invalid_json_line_recovers (bad : List Char) (handlers : HandlerMap)
    (now : String) (st : ServState) (rest : List (List Char)) (fuel : Nat)
    (hline : ¬ '\n' ∈ bad) (hbadnil : bad ≠ [])
    (hbadjson : json_loads (pyStrip (bad ++ ['\n'])) = none) :
    serveConn (fuel + 1) handlers now st ((bad ++ ['\n']) :: rest)
      = (mkError "Invalid JSON format"
           :: (serveConn fuel handlers now
                (json_error_state now (pyStrip (bad ++ ['\n'])) st) rest).1,
         (serveConn fuel handlers now
                (json_error_state now (pyStrip (bad ++ ['\n'])) st) rest).2)
    ∧ ∀ (kvs : List (String × JVal)),
        (serveConn (fuel + 2) handlers now st
            [bad ++ ['\n'], encodeMsg (.obj kvs)]).1
          = [mkError "Invalid JSON format",
             (processCommand handlers now
                (json_error_state now (pyStrip (bad ++ ['\n'])) st) kvs).1] := by
  constructor
  · rw [serveConn.eq_def]
    dsimp only
    rw [serveCycle_invalid bad handlers now st rest hbadnil hbadjson]
  · intro kvs
    rw [serveConn.eq_def]
    dsimp only
    rw [serveCycle_invalid bad handlers now st [encodeMsg (.obj kvs)] hbadnil hbadjson]
    dsimp only
    rw [serveConn.eq_def]
    dsimp only
    rw [serveCycle_command kvs handlers now _ []]
    dsimp only
    rw [serveConn_nil]

/-- Witness for C5: the line `garbage\n` followed by a well-formed
`get_objects` command on the same connection. -/
theorem invalid_json_line_recovers_witness :
    (serveConn 3 okHandlers "10:00:01" initialServState
        ["garbage".data ++ ['\n'], encodeMsg (.obj [("type", .str "get_objects")])]).1
      = [mkError "Invalid JSON format",
         (processCommand okHandlers "10:00:01"
            (json_error_state "10:00:01" (pyStrip ("garbage".data ++ ['\n']))
              initialServState)
            [("type", .str "get_objects")]).1] :=
  (invalid_json_line_recovers "garbage".data okHandlers "10:00:01" initialServState
      [encodeMsg (.obj [("type", .str "get_objects")])] 1
      (by decide) (by decide) (by decide)).2 [("type", .str "get_objects")]

/-- Witness for C4: the unregistered command type `warp_drive`. -/
theorem unknown_type_dispatch_witness :
    (processCommand (fun _ => none) "10:00:02" initialServState
        [("type", .str "warp_drive")]).1 = mkError ("Unknown command: " ++ "warp_drive")
    ∧ strContains ("Unknown command: " ++ "warp_drive") "warp_drive" = true :=
  unknown_type_dispatch (fun _ => none) "10:00:02" initialServState
    [("type", .str "warp_drive")] "warp_drive" rfl rfl

/-- Witness for C7: a registered handler answers with an error Response,
and the last-error slot afterwards holds exactly that error's data. -/
theorem last_error_tracking_witness :
    (processCommand
        (fun s => if s = "boom" then some (fun _ => mkError "it broke") else none)
        "10:00:03" initialServState [("type", .str "boom")]).2.lastError
      = save_error "10:00:03" (.str "boom") (.str "it broke")
          ("Command failed: " ++ "boom") := by
  have h := (last_error_tracking
      (fun s => if s = "boom" then some (fun _ => mkError "it broke") else none)
      "10:00:03" initialServState [("type", .str "boom")]).1 (.str "it broke") rfl rfl
  exact h

/-! ### Client connector (`BlenderMCPService`, blender_mcp_service.py) -/

/-- The connector's connection flag (`self.connected`). -/
structure ClientState where
  connected : Bool
deriving DecidableEq

/-- The outcome of the transport operations inside `send_command`'s try
block: either `sendall` succeeds and the successive `recv` calls return
these chunks, or some socket operation raises with `str(e) = msg`. -/
inductive TransportOutcome where
  | ok (chunks : List (List Char))
  | exn (msg : String)

/-- Python truthiness of a decoded JSON value (`if params:`).  A float is
falsy exactly when its value is zero — all mantissa digits `0` (the
`params` argument this models is an `Optional[Dict]`, so the float arm is
never exercised on this wire; literals tiny enough to underflow to zero
are not distinguished here). -/
def pyTruthy : JVal → Bool
  | .null => false
  | .bool b => b
  | .num i => i != 0
  | .fnum f =>
    !(f.text.takeWhile (fun c => !(c == 'e' || c == 'E'))).all
      (fun c => !c.isDigit || c == '0')
  | .str s => !s.isEmpty
  | .arr es => !es.isEmpty
  | .obj fs => !fs.isEmpty

/-- The command dict `send_command` builds (lines 59-63): the `params`
key is attached only when `params` is truthy (so `None` and the empty
dict are both omitted). -/
def clientBuildCommand (command_type : String) (params : Option JVal) : JVal :=
  .obj (("type", .str command_type) ::
    (match params with
     | some p => if pyTruthy p then [("params", p)] else []
     | none => []))

/-- The bytes `send_command` writes to the socket (line 66):
`json.dumps(command) + "\n"`. -/
def clientWireBytes (command_type : String) (params : Option JVal) : List Char :=
  dumpsVal (clientBuildCommand command_type params) ++ ['\n']

/-- `BlenderMCPService.send_command` (lines 51-86).  When not connected it
makes exactly one implicit `connect()` attempt (whose success is
`connectOk`); any transport exception or response-decode failure yields a
synthetic error Response and clears the connected flag.  The result also
counts the implicit connect attempts made.  `none` models the receive
loop blocking forever on an exhausted stream. -/
def send_command (connectOk : Bool) (t : TransportOutcome) (st : ClientState)
    (command_type : String) (params : Option JVal) :
    Option (JVal × ClientState × Nat) :=
  match (if st.connected then some (st, 0)
         else if connectOk then some (ClientState.mk true, 1) else none) with
  | none => some (mkError "Not connected to Blender", ClientState.mk false, 1)
  | some (st1, n) =>
    match t with
    | .exn msg => some (mkError msg, ClientState.mk false, n)
    | .ok chunks =>
      match clientRecv [] chunks with
      | none => none
      | some response_data =>
        match json_loads (pyStrip response_data) with
        | some resp => some (resp, st1, n)
        | none => some (mkError jsonErrDetail, ClientState.mk false, n)

/-- C3 — Connector error paths.  (i) Called while disconnected,
`send_command` makes exactly one implicit connect attempt and, if it
fails, returns the `Not connected to Blender` error Response instead of
raising.  (ii) A transport exception during send/receive yields a
synthetic error Response carrying the exception text and clears the
connected flag.  (iii) So does a connect-then-fail sequence, still with
exactly one connect attempt.  (iv) A response that fails JSON decoding is
likewise converted to an error Response with the flag cleared. -/
theorem send_command_error_paths :
    (∀ (command_type : String) (params : Option JVal) (t : TransportOutcome),
        send_command false t (ClientState.mk false) command_type params
          = some (mkError "Not connected to Blender", ClientState.mk false, 1))
    ∧ (∀ (connectOk : Bool) (command_type : String) (params : Option JVal)
         (msg : String) (st : ClientState), st.connected = true →
        send_command connectOk (.exn msg) st command_type params
          = some (mkError msg, ClientState.mk false, 0))
    ∧ (∀ (command_type : String) (params : Option JVal) (msg : String),
        send_command true (.exn msg) (ClientState.mk false) command_type params
          = some (mkError msg, ClientState.mk false, 1))
    ∧ (∀ (connectOk : Bool) (command_type : String) (params : Option JVal)
         (chunks : List (List Char)) (d : List Char) (st : ClientState),
        st.connected = true → clientRecv [] chunks = some d →
        json_loads (pyStrip d) = none →
        send_command connectOk (.ok chunks) st command_type params
          = some (mkError jsonErrDetail, ClientState.mk false, 0)) := by
  refine ⟨?_, ?_, ?_, ?_⟩
  · intro command_type params t
    rfl
  · intro connectOk command_type params msg st hc
    obtain ⟨b⟩ := st
    simp only at hc
    subst hc
    rfl
  · intro command_type params msg
    rfl
  · intro connectOk command_type params chunks d st hc hrecv hjson
    obtain ⟨b⟩ := st
    simp only at hc
    subst hc
    simp only [send_command, if_pos rfl]
    rw [hrecv]
    dsimp only
    rw [hjson]
    rfl

/-- Witness for C3: a failed connect, a transport exception after a
successful implicit connect, and an undecodable response. -/
theorem send_command_error_paths_witness :
    send_command false (.ok []) (ClientState.mk false) "get_scene_info" none
      = some (mkError "Not connected to Blender", ClientState.mk false, 1)
    ∧ send_command true (.exn "Connection reset by peer") (ClientState.mk false)
        "get_scene_info" none
      = some (mkError "Connection reset by peer", ClientState.mk false, 1)
    ∧ send_command true (.ok [['o', 'k', '\n']]) (ClientState.mk true)
        "get_scene_info" none
      = some (mkError jsonErrDetail, ClientState.mk false, 0) :=
  ⟨(send_command_error_paths).1 "get_scene_info" none (.ok []),
   (send_command_error_paths).2.2.1 "get_scene_info" none "Connection reset by peer",
   (send_command_error_paths).2.2.2 true "get_scene_info" none [['o', 'k', '\n']]
     ['o', 'k', '\n'] (ClientState.mk true) rfl rfl (by decide)⟩

/-- C10 — Omitted `params`.  For every command name, the wire command for
`params = None` and for `params = {}` is the identical object without a
`"params"` key; on the server side, a command without `"params"` reaches
its registered handler with the empty mapping substituted, so the three
client calls `send_command(name)`, `send_command(name, None)` and
`send_command(name, {})` produce identical server-side behavior. -/
theorem params_omitted_equivalence (command_type : String) :
    clientBuildCommand command_type none = .obj [("type", .str command_type)]
    ∧ clientBuildCommand command_type (some (.obj []))
        = clientBuildCommand command_type none
    ∧ dictGet [("type", .str command_type)] "params" = none
    ∧ ∀ (handlers : HandlerMap) (h : JVal → JVal) (now : String) (st : ServState),
        handlers command_type = some h →
        (processCommand handlers now st [("type", .str command_type)]).1
          = h (.obj []) := by
  refine ⟨rfl, rfl, rfl, ?_⟩
  intro handlers h now st hh
  simp only [processCommand]
  rw [show dictGet [("type", .str command_type)] "type" = some (.str command_type)
    from rfl]
  dsimp only
  rw [hh]
  rfl

/-- Witness for C10: the `get_objects` handler of the concrete table
receives the empty mapping. -/
theorem params_omitted_equivalence_witness :
    (processCommand okHandlers "10:00:04" initialServState
        [("type", .str "get_objects")]).1
      = .obj [("status", .str "success"), ("result", .arr [])] :=
  (params_omitted_equivalence "get_objects").2.2.2 okHandlers
    (fun _ => .obj [("status", .str "success"), ("result", .arr [])])
    "10:00:04" initialServState rfl

/-! ### Natural-language translator (`handle_natural_language`, addon.py) -/

/-- Python `str.lower()` (ASCII portion, all this translator matches on). -/
def lowerChars (l : List Char) : List Char := l.map Char.toLower

/-- `needle in text_lower` as the translator tests it. -/
def nlContains (tl : List Char) (needle : String) : Bool := containsChars tl needle.data

/-- Python `str()` of an int. -/
def pyIntStr (i : Int) : String := String.mk (intChars i)

/-- Helper for `str` of an int list: `, x` tail segments. -/
def pyIntListStrAux : List Int → String
  | [] => ""
  | x :: rest => ", " ++ pyIntStr x ++ pyIntListStrAux rest

/-- Python `str([a, b, c])` as the generated result messages embed it. -/
def pyIntListStr : List Int → String
  | [] => "[]"
  | x :: rest => "[" ++ pyIntStr x ++ pyIntListStrAux rest ++ "]"

/-- `str(location)` for the translator's 3-component location. -/
def pyLocListStr (loc : Int × Int × Int) : String :=
  pyIntListStr [loc.1, loc.2.1, loc.2.2]

/-- `str(location[0]) + "," + str(location[1]) + "," + str(location[2])`,
spliced into the generated `location=(...)` arguments. -/
def locParen (loc : Int × Int × Int) : String :=
  pyIntStr loc.1 ++ "," ++ pyIntStr loc.2.1 ++ "," ++ pyIntStr loc.2.2

/-- Python `str.capitalize()`. -/
def pyCapitalize (s : String) : String :=
  match s.data with
  | [] => ""
  | c :: rest => String.mk (c.toUpper :: rest.map Char.toLower)

/-- Which branch of `handle_natural_language` produced the command; every
branch routes through `handle_execute_blender_code` with the generated
code as its `code` parameter. -/
inductive NLBranch where
  | specialRedSphere
  | genericCreate
  | notUnderstood
deriving DecidableEq

/-- The special-case code (addon lines 570-590), verbatim. -/
def redSphereCode : String :=
  "\nimport bpy\n\n# Create a sphere\nbpy.ops.mesh.primitive_uv_sphere_add(radius=1.0, location=(0, 0, 0))\nobj = bpy.context.active_object\nobj.name = \"RedSphere\"\n\n# Add a material\nmat = bpy.data.materials.new(name=\"RedSphere_Mat\")\nmat.use_nodes = True\nif obj.data:\n    obj.data.materials.append(mat)\n\n# Set color to red\nprincipled = next((n for n in mat.node_tree.nodes if n.type == \x27BSDF_PRINCIPLED\x27), None)\nif principled:\n    principled.inputs[\x27Base Color\x27].default_value = (1.0, 0.0, 0.0, 1.0)\n\nresult = \"Created a red sphere in the middle\"\n"

/-- The default-branch code (addon lines 724-727), verbatim. -/
def notUnderstoodCode : String :=
  "\nimport bpy\nresult = \"I couldn\x27t understand that command. Try saying \x27create a red sphere in the middle\x27 or similar.\"\n"

/-- The per-shape base code (addon lines 631-679). -/
def shapeBaseCode (shape_type : Option String) (loc : Int × Int × Int) : String :=
  match shape_type with
  | some "sphere" =>
    "\nimport bpy\n\n# Create a sphere\nbpy.ops.mesh.primitive_uv_sphere_add(radius=1.0, location=("
      ++ locParen loc ++ "))\nobj = bpy.context.active_object\n"
  | some "cube" =>
    "\nimport bpy\n\n# Create a cube\nbpy.ops.mesh.primitive_cube_add(size=1.0, location=("
      ++ locParen loc ++ "))\nobj = bpy.context.active_object\n"
  | some "cylinder" =>
    "\nimport bpy\n\n# Create a cylinder\nbpy.ops.mesh.primitive_cylinder_add(radius=1.0, depth=2.0, location=("
      ++ locParen loc ++ "))\nobj = bpy.context.active_object\n"
  | some "cone" =>
    "\nimport bpy\n\n# Create a cone\nbpy.ops.mesh.primitive_cone_add(radius1=1.0, depth=2.0, location=("
      ++ locParen loc ++ "))\nobj = bpy.context.active_object\n"
  | some "plane" =>
    "\nimport bpy\n\n# Create a plane\nbpy.ops.mesh.primitive_plane_add(size=2.0, location=("
      ++ locParen loc ++ "))\nobj = bpy.context.active_object\n"
  | _ =>
    "\nimport bpy\n\n# Create a default cube\nbpy.ops.mesh.primitive_cube_add(size=1.0, location=(0, 0, 0))\nobj = bpy.context.active_object\n"

/-- The `color_values` dictionary lookup with its `(0.8, 0.8, 0.8, 1.0)`
default (addon lines 686-695). -/
def color_values (c : String) : String :=
  if c = "red" then "(1.0, 0.0, 0.0, 1.0)"
  else if c = "green" then "(0.0, 1.0, 0.0, 1.0)"
  else if c = "blue" then "(0.0, 0.0, 1.0, 1.0)"
  else if c = "yellow" then "(1.0, 1.0, 0.0, 1.0)"
  else if c = "white" then "(1.0, 1.0, 1.0, 1.0)"
  else if c = "black" then "(0.0, 0.0, 0.0, 1.0)"
  else "(0.8, 0.8, 0.8, 1.0)"

/-- The material-and-color suffix appended when a color was recognized
(addon lines 697-712). -/
def colorBlock (name cval colorWord shapeWord : String) (loc : Int × Int × Int) : String :=
  "\nobj.name = \"" ++ name
    ++ "\"\n\n# Add a material\nmat = bpy.data.materials.new(name=\"" ++ name
    ++ "_Mat\")\nmat.use_nodes = True\nif obj.data:\n    obj.data.materials.append(mat)\n\n# Set color\nprincipled = next((n for n in mat.node_tree.nodes if n.type == \x27BSDF_PRINCIPLED\x27), None)\nif principled:\n    principled.inputs[\x27Base Color\x27].default_value = "
    ++ cval ++ "\n\nresult = \"Created a " ++ colorWord ++ " " ++ shapeWord
    ++ " at location " ++ pyLocListStr loc ++ "\"\n"

/-- The suffix appended when no color was recognized (addon lines 715-718). -/
def noColorBlock (name shapeWord : String) (loc : Int × Int × Int) : String :=
  "\nobj.name = \"" ++ name ++ "\"\nresult = \"Created a " ++ shapeWord
    ++ " at location " ++ pyLocListStr loc ++ "\"\n"

/-- `handle_natural_language` (addon lines 559-731): the ordered rule
match over the lower-cased, stripped input.  Every branch returns through
`handle_execute_blender_code({"code": code})`; here the routed code plus
the branch taken. -/
def handle_natural_language (text : String) : NLBranch × String :=
  let text_lower := pyStrip (lowerChars text.data)
  if nlContains text_lower "red"
      && (nlContains text_lower "sphere" || nlContains text_lower "ball")
      && (nlContains text_lower "middle" || nlContains text_lower "center") then
    (.specialRedSphere, redSphereCode)
  else if nlContains text_lower "create" || nlContains text_lower "make"
      || nlContains text_lower "add" then
    let shape_type : Option String :=
      if nlContains text_lower "cube" then some "cube"
      else if nlContains text_lower "sphere" || nlContains text_lower "ball" then
        some "sphere"
      else if nlContains text_lower "cylinder" then some "cylinder"
      else if nlContains text_lower "cone" then some "cone"
      else if nlContains text_lower "plane" then some "plane"
      else none
    let color : Option String :=
      if nlContains text_lower "red" then some "red"
      else if nlContains text_lower "green" then some "green"
      else if nlContains text_lower "blue" then some "blue"
      else if nlContains text_lower "yellow" then some "yellow"
      else if nlContains text_lower "white" then some "white"
      else if nlContains text_lower "black" then some "black"
      else none
    let location : Int × Int × Int := (0, 0, 0)
    let location :=
      if nlContains text_lower "middle" || nlContains text_lower "center" then
        ((0, 0, 0) : Int × Int × Int)
      else location
    let code := shapeBaseCode shape_type location
    let code :=
      match color with
      | some col =>
        let name :=
          match shape_type with
          | some sh => pyCapitalize col ++ pyCapitalize sh
          | none => "Object"
        code ++ colorBlock name (color_values col) col
          (match shape_type with | some sh => sh | none => "object") location
      | none =>
        code ++ noColorBlock
          (match shape_type with | some sh => pyCapitalize sh | none => "Object")
          (match shape_type with | some sh => sh | none => "object") location
    (.genericCreate, code)
  else
    (.notUnderstood, notUnderstoodCode)

/-- Occurrence count of `needle` (number of start positions) in `hay`. -/
def countOccurs : List Char → List Char → Nat
  | [], _ => 0
  | c :: t, needle =>
    (if startsWithChars (c :: t) needle then 1 else 0) + countOccurs t needle

/-- Occurrence count for strings. -/
def strCount (hay needle : String) : Nat := countOccurs hay.data needle.data

set_option maxRecDepth 100000 in
/-- C8: on the input "create a red sphere in the middle" the translator
takes the special-case branch (even though the generic create-verb branch
would also match, it is tested second), and the code it routes through the
execute-code command contains exactly one object-creation operator — a
UV-sphere add at location (0, 0, 0) — names the object "RedSphere"
(containing "Red" and "Sphere"), and sets the material base color to
(1.0, 0.0, 0.0, 1.0). -/
theorem red_sphere_special_case :
    handle_natural_language "create a red sphere in the middle"
      = (NLBranch.specialRedSphere, redSphereCode)
    ∧ nlContains (pyStrip (lowerChars ("create a red sphere in the middle").data))
        "create" = true
    ∧ strCount redSphereCode "bpy.ops.mesh.primitive_" = 1
    ∧ strCount redSphereCode "primitive_uv_sphere_add" = 1
    ∧ strContains redSphereCode "location=(0, 0, 0)" = true
    ∧ strContains redSphereCode "obj.name = \"RedSphere\"" = true
    ∧ strContains "RedSphere" "Red" = true
    ∧ strContains "RedSphere" "Sphere" = true
    ∧ strContains redSphereCode
        "principled.inputs[\x27Base Color\x27].default_value = (1.0, 0.0, 0.0, 1.0)"
        = true :=
  ⟨rfl, rfl, rfl, rfl, rfl, rfl, rfl, rfl, rfl⟩

set_option maxRecDepth 100000 in
/-- C9 counterexample: the ambiguous input "create something" has a
creation verb but no recognized shape keyword, yet the translator does
NOT degrade to the "not understood" command — it takes the generic create
branch and guesses a default cube. -/
theorem translator_default_counterexample :
    (handle_natural_language "create something").1 = NLBranch.genericCreate
    ∧ handle_natural_language "create something"
        = (NLBranch.genericCreate,
           shapeBaseCode none (0, 0, 0) ++ noColorBlock "Object" "object" (0, 0, 0))
    ∧ strContains (handle_natural_language "create something").2
        "primitive_cube_add" = true
    ∧ (handle_natural_language "create something").2 ≠ notUnderstoodCode := by
  refine ⟨rfl, rfl, rfl, ?_⟩
  decide

/-- C9 (amended): inputs with none of the creation verbs create/make/add
that also miss the red-sphere special case degrade to the "not
understood" command (and the translator is a total function — it never
raises); but an ambiguous input with a creation verb and no recognized
shape or color keyword is answered with a default cube, not with the
"not understood" command. -/
theorem translator_unsupported_vs_ambiguous :
    (∀ text : String,
      nlContains (pyStrip (lowerChars text.data)) "create" = false →
      nlContains (pyStrip (lowerChars text.data)) "make" = false →
      nlContains (pyStrip (lowerChars text.data)) "add" = false →
      (nlContains (pyStrip (lowerChars text.data)) "red"
        && (nlContains (pyStrip (lowerChars text.data)) "sphere"
            || nlContains (pyStrip (lowerChars text.data)) "ball")
        && (nlContains (pyStrip (lowerChars text.data)) "middle"
            || nlContains (pyStrip (lowerChars text.data)) "center")) = false →
      handle_natural_language text = (NLBranch.notUnderstood, notUnderstoodCode))
    ∧ (∀ text : String,
      nlContains (pyStrip (lowerChars text.data)) "create" = true →
      nlContains (pyStrip (lowerChars text.data)) "red" = false →
      nlContains (pyStrip (lowerChars text.data)) "cube" = false →
      nlContains (pyStrip (lowerChars text.data)) "sphere" = false →
      nlContains (pyStrip (lowerChars text.data)) "ball" = false →
      nlContains (pyStrip (lowerChars text.data)) "cylinder" = false →
      nlContains (pyStrip (lowerChars text.data)) "cone" = false →
      nlContains (pyStrip (lowerChars text.data)) "plane" = false →
      nlContains (pyStrip (lowerChars text.data)) "green" = false →
      nlContains (pyStrip (lowerChars text.data)) "blue" = false →
      nlContains (pyStrip (lowerChars text.data)) "yellow" = false →
      nlContains (pyStrip (lowerChars text.data)) "white" = false →
      nlContains (pyStrip (lowerChars text.data)) "black" = false →
      handle_natural_language text
        = (NLBranch.genericCreate,
           shapeBaseCode none (0, 0, 0) ++ noColorBlock "Object" "object" (0, 0, 0))) := by
  constructor
  · intro text hc hm ha hguard
    simp [handle_natural_language, hc, hm, ha, hguard]
  · intro text hc hred hcube hsph hball hcyl hcone hplane hgreen hblue hyellow hwhite hblack
    simp [handle_natural_language, hc, hred, hcube, hsph, hball, hcyl, hcone, hplane,
      hgreen, hblue, hyellow, hwhite, hblack]

set_option maxRecDepth 100000 in
/-- C9 witness: the amended theorem applied at "hello there" (no verb,
not-understood command) and at "create something" (verb, no shape:
default cube). -/
theorem translator_unsupported_vs_ambiguous_witness :
    handle_natural_language "hello there" = (NLBranch.notUnderstood, notUnderstoodCode)
    ∧ handle_natural_language "create something"
        = (NLBranch.genericCreate,
           shapeBaseCode none (0, 0, 0) ++ noColorBlock "Object" "object" (0, 0, 0)) :=
  ⟨translator_unsupported_vs_ambiguous.1 "hello there" rfl rfl rfl rfl,
   translator_unsupported_vs_ambiguous.2 "create something"
     rfl rfl rfl rfl rfl rfl rfl rfl rfl rfl rfl rfl rfl⟩
